import Mathlib

/-!
# Sider2API chat UI: the streaming loop of `src/ui/app.js`

A shallow embedding of the script's conversation state, of the read loop of
`sendMessage` (chunk buffering, line filtering, event dispatch) and of
`clearConversation`, followed by the properties of the specification that are
about them.

Modelling conventions.

* A JavaScript string is a `List Char` (`Str`).  The strings the script handles
  come out of `TextDecoder.decode`, so they are sequences of Unicode scalar
  values; the operations used on them (`+`, `split('\n')`, `trim`,
  `startsWith`, `slice(5)` behind the ASCII prefix `data:`) act the same on
  scalar values and on UTF-16 code units.
* The module-level variables and the locals of one `sendMessage` call are the
  fields of `Ctx`; a function of the script is a function on that record.
* Calls into the page (status line, message bubbles, search bubble) are
  appended, in program order, to the `ui` trace.  `console.log` and
  `console.error` are not recorded, but an exception raised while computing
  their arguments is.
* `await` points are resolved by an explicit `Response` value that says what
  the network produced.  One `sendMessage` call runs to completion before the
  next operation starts.
* `JSON.parse` and the conversion of Number values belong to the JavaScript
  runtime, not to the script: they are the fields of `Runtime`, and every
  general theorem holds for every runtime.
* An exception is modelled where it can arise: a function returning `Option`
  returns `none` exactly where the JavaScript expression throws.
* The request itself (lines 177 to 222: payload, URL, headers) and the two
  listeners on the input box write nothing the properties below read, and are
  left out.
-/

namespace SiderUI

/-- A JavaScript string, as the list of its characters. -/
abbrev Str := List Char

/-! ## String built-ins used by the script -/

/-- Characters removed by `String.prototype.trim`: the ECMAScript WhiteSpace
and LineTerminator code points. -/
def isTrimSpace (c : Char) : Bool :=
  let n := c.toNat
  n == 0x09 || n == 0x0A || n == 0x0B || n == 0x0C || n == 0x0D || n == 0x20 ||
  n == 0xA0 || n == 0x1680 || (0x2000 ≤ n && n ≤ 0x200A) ||
  n == 0x2028 || n == 0x2029 || n == 0x202F || n == 0x205F || n == 0x3000 ||
  n == 0xFEFF

/-- The string without its leading white space. -/
def trimStart (s : Str) : Str := s.dropWhile isTrimSpace

/-- The string without its trailing white space. -/
def trimEnd (s : Str) : Str := (s.reverse.dropWhile isTrimSpace).reverse

/-- The method `s.trim()`. -/
def trim (s : Str) : Str := trimEnd (trimStart s)

/-- The method `s.startsWith(p)`. -/
def startsWith : Str → Str → Bool
  | _, [] => true
  | [], _ :: _ => false
  | c :: s, d :: p => c == d && startsWith s p

/-- The method `s.slice(n)` for a non-negative `n`. -/
def slice (s : Str) (n : Nat) : Str := s.drop n

/-- The call `s.split('\n')`: the pieces between the newlines, always at least
one piece. -/
def splitNL : Str → List Str
  | [] => [[]]
  | c :: cs =>
    if c = '\n' then [] :: splitNL cs
    else
      match splitNL cs with
      | [] => [[c]]
      | l :: ls => (c :: l) :: ls

/-! ## JavaScript values produced by `JSON.parse` -/

/-- A value as the script sees it: what `JSON.parse` returns, plus `undefined`
for an absent property.  A Number is kept as its literal; an object is the list
of its members in source order. -/
inductive Value where
  | undefined
  | null
  | bool (b : Bool)
  | num (lit : Str)
  | str (s : Str)
  | arr (items : List Value)
  | obj (members : List (Str × Value))

/-- The parts of the JavaScript runtime the script calls and the model does not
fix: `JSON.parse` (`none` when it throws a SyntaxError), and the ToBoolean and
ToString conversions of a Number. -/
structure Runtime where
  JSONparse : Str → Option Value
  numToBoolean : Str → Bool
  numToString : Str → Str

/-- The value of the own property `name` among the members of an object; of
two members with the same name the later one counts, as in `JSON.parse`. -/
def lookupLast (name : Str) : List (Str × Value) → Option Value
  | [] => none
  | (k, v) :: rest =>
    match lookupLast name rest with
    | some w => some w
    | none => if k = name then some v else none

/-- The member access `v.name`, for the property names the script reads
(`type`, `content`, `delta`, `text`, `stop_reason`, `tool_name`, `result`),
none of which is defined on a built-in prototype.  `none` is the TypeError
raised on `null` and `undefined`. -/
def getProp (v : Value) (name : Str) : Option Value :=
  match v with
  | .undefined => none
  | .null => none
  | .obj members => some ((lookupLast name members).getD .undefined)
  | _ => some .undefined

/-- The optional chain `v?.name`. -/
def getPropOpt (v : Value) (name : Str) : Value :=
  (getProp v name).getD .undefined

/-- ToBoolean. -/
def toBoolean (rt : Runtime) : Value → Bool
  | .undefined => false
  | .null => false
  | .bool b => b
  | .num lit => rt.numToBoolean lit
  | .str s => !s.isEmpty
  | .arr _ => true
  | .obj _ => true

/-- The expression `v || ''`. -/
def orEmpty (rt : Runtime) (v : Value) : Value :=
  if toBoolean rt v then v else .str []

/-- The strict comparison `v === 'name'` against a string literal. -/
def isStr (v : Value) (name : Str) : Bool :=
  match v with
  | .str s => s == name
  | _ => false

mutual
/-- ToString of a value, as applied to the right operand of `text += v`;
`none` is the TypeError raised for an object whose own `toString` member hides
`Object.prototype.toString`. -/
def toStr (rt : Runtime) : Value → Option Str
  | .undefined => some "undefined".toList
  | .null => some "null".toList
  | .bool b => some (if b then "true".toList else "false".toList)
  | .num lit => some (rt.numToString lit)
  | .str s => some s
  | .arr items => joinItems rt items
  | .obj members =>
    match lookupLast "toString".toList members with
    | some _ => none
    | none => some "[object Object]".toList
/-- The method `Array.prototype.join` with the default separator: `null` and
`undefined` items are printed as the empty string. -/
def joinItems (rt : Runtime) : List Value → Option Str
  | [] => some []
  | x :: rest =>
    match itemStr rt x, joinItems rt rest with
    | some a, some b => some (if rest.isEmpty then a else a ++ ',' :: b)
    | _, _ => none
/-- One item of an array being joined. -/
def itemStr (rt : Runtime) : Value → Option Str
  | .undefined => some []
  | .null => some []
  | .bool b => some (if b then "true".toList else "false".toList)
  | .num lit => some (rt.numToString lit)
  | .str s => some s
  | .arr items => joinItems rt items
  | .obj members =>
    match lookupLast "toString".toList members with
    | some _ => none
    | none => some "[object Object]".toList
end

/-- The compound assignment `text += v` on a string variable: the new text, or
`none` when the conversion of `v` throws (the variable then keeps its value). -/
def appendValue (rt : Runtime) (text : Str) (v : Value) : Option Str :=
  (toStr rt v).map (fun s => text ++ s)

/-! ## Program state -/

/-- The role of a turn of the conversation. -/
inductive Role where
  | user
  | assistant
  deriving DecidableEq, Repr

/-- One entry of `conversationHistory`: the object `{ role, content }`. -/
structure Turn where
  role : Role
  content : Str
  deriving DecidableEq, Repr

/-- A call from the script into the page, recorded in the `ui` trace. -/
inductive Effect where
  /-- The call `showStatus(message, type)`. -/
  | showStatus (message : Str) (type : Str)
  /-- The call `hideStatus()`. -/
  | hideStatus
  /-- The call `addMessage(role, content)`. -/
  | addMessage (role : Role) (content : Str)
  /-- The call `updateThinkingSection(assistantMessageEl, thinkingContent)` on an
  existing element. -/
  | updateThinkingSection (thinkingContent : Str)
  /-- The call `updateAnswerSection(assistantMessageEl, answerContent)` on an
  existing element, with the scroll of line 362. -/
  | updateAnswerSection (answerContent : Str)
  /-- The call `addSearchMessage(text)`. -/
  | addSearchMessage (text : Str)
  /-- The call `removeTemporaryMessages()`. -/
  | removeTemporaryMessages
  /-- Lines 321 to 341 run on a `result` that is neither `null` nor missing: the
  search bubble, if there is one, gets the formatted result, unless the
  formatting throws.  Nothing else is touched. -/
  | showSearchResult (result : Value)
  /-- Lines 163 and 164: the input box is emptied. -/
  | clearInput
  /-- Lines 410 to 413: the last child of the message list is removed if it is a
  user message. -/
  | removeLastUserMessage
  /-- Line 146: the message list is reset to the empty-state placeholder. -/
  | resetMessages
  /-- The call `inputEl.focus()`. -/
  | focusInput

/-- The module-level variables of the script (lines 11 to 13), the disabled
flag of the send button, and the trace of calls into the page. -/
structure State where
  conversationHistory : List Turn
  conversationId : Option Str
  parentMessageId : Option Str
  sendDisabled : Bool
  ui : List Effect

/-- Everything in scope inside the read loop of `sendMessage`: the module-level
state and the locals declared at lines 171 to 173 and 245.  The element handle
`assistantMessageEl` is kept as the flag saying whether it is non-null. -/
structure Ctx where
  conversationHistory : List Turn
  conversationId : Option Str
  parentMessageId : Option Str
  sendDisabled : Bool
  ui : List Effect
  assistantMessageEl : Bool
  fullText : Str
  thinkingText : Str
  buffer : Str

/-- The context extended by one call into the page. -/
def Ctx.emit (c : Ctx) (e : Effect) : Ctx :=
  { c with ui := c.ui ++ [e] }

/-- The state extended by one call into the page. -/
def State.emit (s : State) (e : Effect) : State :=
  { s with ui := s.ui ++ [e] }

/-- The context at line 245: the locals freshly initialised. -/
def State.enter (s : State) : Ctx :=
  { conversationHistory := s.conversationHistory
    conversationId := s.conversationId
    parentMessageId := s.parentMessageId
    sendDisabled := s.sendDisabled
    ui := s.ui
    assistantMessageEl := false
    fullText := []
    thinkingText := []
    buffer := [] }

/-- The module-level part of a context. -/
def Ctx.toState (c : Ctx) : State :=
  { conversationHistory := c.conversationHistory
    conversationId := c.conversationId
    parentMessageId := c.parentMessageId
    sendDisabled := c.sendDisabled
    ui := c.ui }

/-! ## The event dispatcher (lines 270 to 384) -/

/-- The branch `reasoning_start`, lines 280 to 288. -/
def onReasoningStart (c : Ctx) : Ctx :=
  let c := c.emit (.showStatus "🧠 思考中...".toList [])
  let c := { c with thinkingText := [] }
  if c.assistantMessageEl then c
  else { c.emit (.addMessage .assistant []) with assistantMessageEl := true }

/-- The branch `reasoning_delta`, lines 291 to 299.  After the text is updated
the only thing that can throw is the argument of `console.log`. -/
def onReasoningDelta (rt : Runtime) (parsed : Value) (c : Ctx) : Ctx :=
  let content := orEmpty rt (getPropOpt parsed "content".toList)
  match appendValue rt c.thinkingText content with
  | none => c
  | some t =>
    let c := { c with thinkingText := t }
    if c.assistantMessageEl then c.emit (.updateThinkingSection t) else c

/-- The branch `search_start`, lines 308 to 313. -/
def onSearchStart (c : Ctx) : Ctx :=
  (c.emit (.showStatus "🔍 正在搜索...".toList [])).emit
    (.addSearchMessage "正在搜索相关信息...".toList)

/-- The branch `search_result`, lines 316 to 342: reading `result.search`
throws on a missing or null `result`. -/
def onSearchResult (parsed : Value) (c : Ctx) : Ctx :=
  match getPropOpt parsed "result".toList with
  | .undefined => c
  | .null => c
  | result => c.emit (.showSearchResult result)

/-- The branch `content_block_start`, lines 345 to 352. -/
def onContentBlockStart (c : Ctx) : Ctx :=
  let c :=
    if c.assistantMessageEl then c
    else { c.emit (.addMessage .assistant []) with assistantMessageEl := true }
  (c.emit .removeTemporaryMessages).emit (.showStatus "💬 回复中...".toList [])

/-- The branch `content_block_delta`, lines 355 to 364. -/
def onContentBlockDelta (rt : Runtime) (parsed : Value) (c : Ctx) : Ctx :=
  let deltaText :=
    orEmpty rt (getPropOpt (getPropOpt parsed "delta".toList) "text".toList)
  match appendValue rt c.fullText deltaText with
  | none => c
  | some t =>
    let c := { c with fullText := t }
    if c.assistantMessageEl then c.emit (.updateAnswerSection t) else c

/-- The branch `message_delta`, lines 372 to 378. -/
def onMessageDelta (parsed : Value) (c : Ctx) : Ctx :=
  let stopReason := getPropOpt (getPropOpt parsed "delta".toList) "stop_reason".toList
  if isStr stopReason "end_turn".toList then
    (c.emit (.showStatus "✅ 完成".toList "success".toList)).emit .removeTemporaryMessages
  else c

/-- The body of the inner `try` after `JSON.parse` returned `parsed`, lines 268
to 384.  Reading `parsed.type` throws when `parsed` is `null`; the handler of
line 386 only logs, so the context is returned as it is. -/
def dispatch (rt : Runtime) (parsed : Value) (c : Ctx) : Ctx :=
  match getProp parsed "type".toList with
  | none => c
  | some eventType =>
    if isStr eventType "message_start".toList then
      c.emit (.showStatus "🤔 准备中...".toList [])
    else if isStr eventType "reasoning_start".toList then onReasoningStart c
    else if isStr eventType "reasoning_delta".toList then onReasoningDelta rt parsed c
    else if isStr eventType "reasoning_end".toList then
      c.emit (.showStatus "💡 思考完成".toList "success".toList)
    else if isStr eventType "search_start".toList then onSearchStart c
    else if isStr eventType "search_result".toList then onSearchResult parsed c
    else if isStr eventType "content_block_start".toList then onContentBlockStart c
    else if isStr eventType "content_block_delta".toList then onContentBlockDelta rt parsed c
    else if isStr eventType "content_block_stop".toList then c
    else if isStr eventType "message_delta".toList then onMessageDelta parsed c
    else if isStr eventType "message_stop".toList then c.emit .hideStatus
    else c

/-! ## The read loop (lines 247 to 391) -/

/-- The body of `for (const line of lines)`, lines 256 to 389. -/
def processLine (rt : Runtime) (line : Str) (c : Ctx) : Ctx :=
  if (trim line).isEmpty || startsWith line ":".toList then c
  else if startsWith line "data:".toList then
    let data := trim (slice line 5)
    if data = "[DONE]".toList then c.emit .removeTemporaryMessages
    else
      match rt.JSONparse data with
      | none => c
      | some parsed => dispatch rt parsed c
  else c

/-- The inner loop over the complete lines of one read. -/
def processLines (rt : Runtime) (lines : List Str) (c : Ctx) : Ctx :=
  lines.foldl (fun c line => processLine rt line c) c

/-- One iteration of `while (true)` for a read that returned the decoded text
`value`, lines 251 to 390: `lines.pop()` takes the last piece as the new
buffer. -/
def readChunk (rt : Runtime) (value : Str) (c : Ctx) : Ctx :=
  let lines := splitNL (c.buffer ++ value)
  let c := { c with buffer := lines.getLast?.getD [] }
  processLines rt lines.dropLast c

/-- The loop `while (true)` over the reads of the body, until `done`. -/
def readLoop (rt : Runtime) (chunks : List Str) (c : Ctx) : Ctx :=
  chunks.foldl (fun c value => readChunk rt value c) c

/-- The lines one read hands to the loop body, and the buffer it leaves. -/
def decodeChunk (buffer value : Str) : List Str × Str :=
  let lines := splitNL (buffer ++ value)
  (lines.dropLast, lines.getLast?.getD [])

/-- The lines the reads of a whole body hand to the loop body, in order, and
the buffer left when the body ends. -/
def decodeChunks : Str → List Str → List Str × Str
  | buffer, [] => ([], buffer)
  | buffer, value :: rest =>
    let r := decodeChunks (decodeChunk buffer value).2 rest
    ((decodeChunk buffer value).1 ++ r.1, r.2)

/-! ## `sendMessage` and `clearConversation` -/

/-- What the network produced for one request. -/
inductive Response where
  /-- The promise of `fetch` rejects with an error of this message. -/
  | networkError (message : Str)
  /-- A response with `response.ok` false; `message` is the message of the
  error that leaves lines 225 and 226. -/
  | httpError (message : Str)
  /-- A response with `response.ok` true: the two header values as
  `headers.get` returns them, the decoded text of each read, and the message of
  the error when the body fails after those reads instead of ending. -/
  | success (xConversationId xAssistantMessageId : Option Str) (chunks : List Str)
      (readError : Option Str)

/-- The sentinel committed for an empty answer, line 394. -/
def emptyResponse : Str := "[空响应]".toList

/-- The header processing of lines 230 to 240: a header value replaces the
identifier when it is a non-empty string. -/
def updateSession (xConversationId xAssistantMessageId : Option Str) (s : State) : State :=
  let s :=
    match xConversationId with
    | some (ch :: rest) => { s with conversationId := some (ch :: rest) }
    | _ => s
  match xAssistantMessageId with
  | some (ch :: rest) => { s with parentMessageId := some (ch :: rest) }
  | _ => s

/-- The `catch` block, lines 404 to 415. -/
def catchBlock (message : Str) (s : State) : State :=
  let s := s.emit (.showStatus (if message.isEmpty then "请求失败".toList else message) "error".toList)
  let s := { s with conversationHistory := s.conversationHistory.dropLast }
  (s.emit .removeLastUserMessage).emit .removeTemporaryMessages

/-- The `finally` block, lines 416 to 419. -/
def finallyBlock (s : State) : State :=
  { s with sendDisabled := false }.emit .focusInput

/-- The end of the `try` block once the body has ended, lines 393 to 402. -/
def commit (c : Ctx) : State :=
  let assistantMessage := if c.fullText.isEmpty then emptyResponse else c.fullText
  let c := { c with conversationHistory := c.conversationHistory ++ [Turn.mk .assistant assistantMessage] }
  let c :=
    if !c.assistantMessageEl && !assistantMessage.isEmpty then
      c.emit (.addMessage .assistant assistantMessage)
    else c
  (c.emit .hideStatus).toState

/-- Lines 158 to 168: the user turn is shown and pushed, the input emptied,
the button disabled. -/
def submit (message : Str) (s : State) : State :=
  let s := s.emit (.addMessage .user message)
  let s := { s with conversationHistory := s.conversationHistory ++ [Turn.mk .user message] }
  let s := s.emit .clearInput
  let s := { s with sendDisabled := true }
  s.emit (.showStatus "正在发送...".toList [])

/-- The `try` block of `sendMessage` from the request on, with its `catch`. -/
def exchange (rt : Runtime) (resp : Response) (s : State) : State :=
  match resp with
  | .networkError message => catchBlock message s
  | .httpError message => catchBlock message s
  | .success xConversationId xAssistantMessageId chunks readError =>
    let c := readLoop rt chunks (updateSession xConversationId xAssistantMessageId s).enter
    match readError with
    | some message => catchBlock message c.toState
    | none => commit c

/-- The function `sendMessage`, lines 150 to 420, for the text `inputValue` of
the input box and the response the request receives. -/
def sendMessage (rt : Runtime) (inputValue : Str) (resp : Response) (s : State) : State :=
  let message := trim inputValue
  if message.isEmpty || s.sendDisabled then s
  else finallyBlock (exchange rt resp (submit message s))

/-- The function `clearConversation`, lines 142 to 148. -/
def clearConversation (s : State) : State :=
  ({ s with conversationHistory := [], conversationId := none, parentMessageId := none }.emit
    .resetMessages).emit .hideStatus

/-! ## A reference `JSON.parse`

The closed scenarios below need an actual parser.  `refJSONparse` follows the
JSON grammar of ECMA-404: objects, arrays, strings with their escapes, number
literals, `true`, `false`, `null`, and white space between tokens.  A `\u`
escape of a lone surrogate has no `Char` and is rejected. -/

/-- JSON white space. -/
def isJsonSpace (c : Char) : Bool :=
  c == ' ' || c == '\t' || c == '\n' || c == '\r'

/-- The text without its leading JSON white space. -/
def skipSpace (s : Str) : Str := s.dropWhile isJsonSpace

/-- The value of a hexadecimal digit. -/
def hexDigit (c : Char) : Option Nat :=
  let n := c.toNat
  if 48 ≤ n && n ≤ 57 then some (n - 48)
  else if 65 ≤ n && n ≤ 70 then some (n - 55)
  else if 97 ≤ n && n ≤ 102 then some (n - 87)
  else none

/-- The code unit written by four hexadecimal digits. -/
def hex4 (a b c d : Char) : Option Nat :=
  match hexDigit a, hexDigit b, hexDigit c, hexDigit d with
  | some x, some y, some z, some w => some (((x * 16 + y) * 16 + z) * 16 + w)
  | _, _, _, _ => none

/-- The text of a string literal after its opening quote, and what follows the
closing quote. -/
def parseStringBody : Nat → Str → Option (Str × Str)
  | 0, _ => none
  | _ + 1, [] => none
  | _ + 1, '"' :: rest => some ([], rest)
  | fuel + 1, '\\' :: rest =>
    match rest with
    | 'u' :: a :: b :: c :: d :: rest =>
      match hex4 a b c d with
      | none => none
      | some hi =>
        if 0xD800 ≤ hi && hi ≤ 0xDBFF then
          match rest with
          | '\\' :: 'u' :: e :: f :: g :: h :: rest =>
            match hex4 e f g h with
            | none => none
            | some lo =>
              if 0xDC00 ≤ lo && lo ≤ 0xDFFF then
                (parseStringBody fuel rest).map fun r =>
                  (Char.ofNat (0x10000 + (hi - 0xD800) * 0x400 + (lo - 0xDC00)) :: r.1, r.2)
              else none
          | _ => none
        else if 0xDC00 ≤ hi && hi ≤ 0xDFFF then none
        else (parseStringBody fuel rest).map fun r => (Char.ofNat hi :: r.1, r.2)
    | e :: rest =>
      let decoded : Option Char :=
        if e = '"' then some '"'
        else if e = '\\' then some '\\'
        else if e = '/' then some '/'
        else if e = 'b' then some (Char.ofNat 8)
        else if e = 'f' then some (Char.ofNat 12)
        else if e = 'n' then some '\n'
        else if e = 'r' then some '\r'
        else if e = 't' then some '\t'
        else none
      match decoded with
      | none => none
      | some ch => (parseStringBody fuel rest).map fun r => (ch :: r.1, r.2)
    | [] => none
  | fuel + 1, ch :: rest =>
    if ch.toNat < 0x20 then none
    else (parseStringBody fuel rest).map fun r => (ch :: r.1, r.2)

/-- The leading decimal digits of a text, and the rest. -/
def spanDigits (s : Str) : Str × Str := s.span Char.isDigit

/-- A number literal at the head of the text, and the rest. -/
def parseNumber (s : Str) : Option (Str × Str) :=
  let (sign, s) :=
    match s with
    | '-' :: rest => (['-'], rest)
    | _ => (([] : Str), s)
  let (int, s) := spanDigits s
  if int.isEmpty || (int.length > 1 && int.head? == some '0') then none
  else
    let frac : Option (Str × Str) :=
      match s with
      | '.' :: rest =>
        let (ds, rest) := spanDigits rest
        if ds.isEmpty then none else some ('.' :: ds, rest)
      | _ => some ([], s)
    match frac with
    | none => none
    | some (fr, s) =>
      let expo : Option (Str × Str) :=
        if s.head? == some 'e' || s.head? == some 'E' then
          let (sg, rest) :=
            match s.tail with
            | '+' :: rest => (['+'], rest)
            | '-' :: rest => (['-'], rest)
            | rest => (([] : Str), rest)
          let (ds, rest) := spanDigits rest
          if ds.isEmpty then none else some (s.take 1 ++ sg ++ ds, rest)
        else some ([], s)
      match expo with
      | none => none
      | some (ex, s) => some (sign ++ int ++ fr ++ ex, s)

mutual
/-- A JSON value at the head of the text (after white space), and the rest. -/
def parseValue : Nat → Str → Option (Value × Str)
  | 0, _ => none
  | fuel + 1, s =>
    match skipSpace s with
    | '\x7b' :: rest =>
      match skipSpace rest with
      | '\x7d' :: rest => some (.obj [], rest)
      | rest => (parseMembers fuel rest).map fun r => (.obj r.1, r.2)
    | '[' :: rest =>
      match skipSpace rest with
      | ']' :: rest => some (.arr [], rest)
      | rest => (parseElements fuel rest).map fun r => (.arr r.1, r.2)
    | '"' :: rest => (parseStringBody rest.length rest).map fun r => (.str r.1, r.2)
    | 't' :: 'r' :: 'u' :: 'e' :: rest => some (.bool true, rest)
    | 'f' :: 'a' :: 'l' :: 's' :: 'e' :: rest => some (.bool false, rest)
    | 'n' :: 'u' :: 'l' :: 'l' :: rest => some (.null, rest)
    | s => (parseNumber s).map fun r => (.num r.1, r.2)
/-- The members of an object after the opening brace or a comma, up to and
including the closing brace. -/
def parseMembers : Nat → Str → Option (List (Str × Value) × Str)
  | 0, _ => none
  | fuel + 1, s =>
    match skipSpace s with
    | '"' :: rest =>
      match parseStringBody rest.length rest with
      | none => none
      | some (key, rest) =>
        match skipSpace rest with
        | ':' :: rest =>
          match parseValue fuel rest with
          | none => none
          | some (v, rest) =>
            match skipSpace rest with
            | ',' :: rest => (parseMembers fuel rest).map fun r => ((key, v) :: r.1, r.2)
            | '\x7d' :: rest => some ([(key, v)], rest)
            | _ => none
        | _ => none
    | _ => none
/-- The elements of an array after the opening bracket or a comma, up to and
including the closing bracket. -/
def parseElements : Nat → Str → Option (List Value × Str)
  | 0, _ => none
  | fuel + 1, s =>
    match parseValue fuel s with
    | none => none
    | some (v, rest) =>
      match skipSpace rest with
      | ',' :: rest => (parseElements fuel rest).map fun r => (v :: r.1, r.2)
      | ']' :: rest => some ([v], rest)
      | _ => none
end

/-- The reference `JSON.parse`: one value, surrounded by white space only. -/
def refJSONparse (s : Str) : Option Value :=
  match parseValue (s.length + 1) s with
  | none => none
  | some (v, rest) => if (skipSpace rest).isEmpty then some v else none

/-- The runtime made of the reference parser and the given Number
conversions. -/
def refRuntime (numToBoolean : Str → Bool) (numToString : Str → Str) : Runtime :=
  { JSONparse := refJSONparse, numToBoolean := numToBoolean, numToString := numToString }

/-! ## Definitions used by the statements -/

/-- The text of a list of lines, each followed by a newline. -/
def unlines (lines : List Str) : Str :=
  (lines.map (fun l => l ++ ['\n'])).flatten

/-- The event has this `type`: the strict comparison `parsed.type === name`
holds. -/
def hasType (parsed : Value) (name : Str) : Bool :=
  match getProp parsed "type".toList with
  | some t => isStr t name
  | none => false

/-- The second context has the module-level variables and the buffer of the
first. -/
def SameOuter (c d : Ctx) : Prop :=
  d.conversationHistory = c.conversationHistory ∧ d.conversationId = c.conversationId ∧
    d.parentMessageId = c.parentMessageId ∧ d.sendDisabled = c.sendDisabled ∧
    d.buffer = c.buffer

/-- The event a line carries: the parsed payload of a `data:` line that is
neither blank, nor a comment, nor the `[DONE]` marker, nor malformed. -/
def decodeLine (rt : Runtime) (line : Str) : Option Value :=
  if (trim line).isEmpty || startsWith line ":".toList then none
  else if startsWith line "data:".toList then
    if trim (slice line 5) = "[DONE]".toList then none
    else rt.JSONparse (trim (slice line 5))
  else none

/-- The events of a list of lines, in order. -/
def events (rt : Runtime) (lines : List Str) : List Value :=
  lines.filterMap (decodeLine rt)

/-- The text a delta field contributes: the field itself when it is a string,
nothing when it is missing, and in general what `text += (field || '')`
appends. -/
def pieceText (rt : Runtime) (field : Value) : Str :=
  (toStr rt (orEmpty rt field)).getD []

/-- The `delta.text` of an event. -/
def deltaText (rt : Runtime) (ev : Value) : Str :=
  pieceText rt (getPropOpt (getPropOpt ev "delta".toList) "text".toList)

/-- The `content` of an event. -/
def contentText (rt : Runtime) (ev : Value) : Str :=
  pieceText rt (getPropOpt ev "content".toList)

/-- The concatenation, in arrival order, of `delta.text` over the
`content_block_delta` events of the lines. -/
def answerText (rt : Runtime) (lines : List Str) : Str :=
  (((events rt lines).filter (fun ev => hasType ev "content_block_delta".toList)).map
    (deltaText rt)).flatten

/-- The concatenation, in arrival order, of `content` over the
`reasoning_delta` events of the lines. -/
def reasoningText (rt : Runtime) (lines : List Str) : Str :=
  (((events rt lines).filter (fun ev => hasType ev "reasoning_delta".toList)).map
    (contentText rt)).flatten

/-- The second context has the accumulated texts of the first. -/
def SameTexts (c d : Ctx) : Prop :=
  d.fullText = c.fullText ∧ d.thinkingText = c.thinkingText

/-- The line is a `data:` line whose payload is the `[DONE]` marker. -/
def isDoneLine (line : Str) : Bool :=
  !((trim line).isEmpty || startsWith line ":".toList) &&
    (startsWith line "data:".toList && decide (trim (slice line 5) = "[DONE]".toList))

/-- The reasoning text after one more event. -/
def thinkingStep (rt : Runtime) (text : Str) (ev : Value) : Str :=
  if hasType ev "reasoning_start".toList then []
  else text ++ (if hasType ev "reasoning_delta".toList then contentText rt ev else [])

/-- The reasoning text after a list of events. -/
def thinkingFold (rt : Runtime) (evs : List Value) (text : Str) : Str :=
  evs.foldl (thinkingStep rt) text

/-- The committed assistant text for an accumulated answer: the answer, or the
sentinel when the answer is empty. -/
def answerOrSentinel (answer : Str) : Str :=
  if answer.isEmpty then emptyResponse else answer

/-- The identifier after a response: the header value when the header is
present and non-empty, the prior identifier otherwise. -/
def headerOr (header prior : Option Str) : Option Str :=
  match header with
  | some v => if v.isEmpty then prior else some v
  | none => prior

/-- The event kinds the dispatcher has a branch for. -/
def handledKinds : List Str :=
  ["message_start".toList, "reasoning_start".toList, "reasoning_delta".toList,
    "reasoning_end".toList, "search_start".toList, "search_result".toList,
    "content_block_start".toList, "content_block_delta".toList,
    "content_block_stop".toList, "message_delta".toList, "message_stop".toList]

/-! ## Definitions of the closed scenarios -/

/-- The runtime of the closed scenarios: the reference parser, with stand-ins
for the Number conversions, which no scenario reaches (a Number is truthy when
its literal has a non-zero digit before the exponent, and prints as its
literal). -/
def scenarioRuntime : Runtime :=
  refRuntime
    (fun lit => (lit.takeWhile (fun ch => ch != 'e' && ch != 'E')).any
      (fun ch => ch.isDigit && ch != '0'))
    (fun lit => lit)

/-- The state of a freshly loaded page. -/
def freshState : State :=
  { conversationHistory := [], conversationId := none, parentMessageId := none,
    sendDisabled := false, ui := [] }

/-- A state in the middle of a conversation, with both identifiers set. -/
def sessionState : State :=
  { conversationHistory := [Turn.mk .user "hi".toList, Turn.mk .assistant "Hello".toList],
    conversationId := some "conv-1".toList, parentMessageId := some "msg-1".toList,
    sendDisabled := false, ui := [] }

/-- The lines of the stream of the specification's first scenario. -/
def helloLines : List Str :=
  ["data: \x7b\"type\":\"message_start\"\x7d".toList,
    "data: \x7b\"type\":\"content_block_start\"\x7d".toList,
    "data: \x7b\"type\":\"content_block_delta\",\"delta\":\x7b\"text\":\"Hello\"\x7d\x7d".toList,
    "data: \x7b\"type\":\"content_block_delta\",\"delta\":\x7b\"text\":\" there\"\x7d\x7d".toList,
    "data: \x7b\"type\":\"message_delta\",\"delta\":\x7b\"stop_reason\":\"end_turn\"\x7d\x7d".toList,
    "data: \x7b\"type\":\"message_stop\"\x7d".toList,
    "data: [DONE]".toList]

/-- The stream of the first scenario, cut in the middle of its second line. -/
def helloChunks : List Str :=
  [(unlines helloLines).take 40, (unlines helloLines).drop 40]

/-- The two chunks of the specification's split-line example. -/
def splitChunks : List Str :=
  ["data: \x7b\"typ".toList, "e\":\"message_stop\"\x7d\n".toList]

/-- An event of a kind the dispatcher has no branch for. -/
def pingEvent : Value :=
  .obj [("type".toList, .str "ping".toList), ("content".toList, .str "x".toList)]

/-- The `reasoning_start` line of the specification's reasoning scenario. -/
def reasoningStartLine : Str :=
  "data: \x7b\"type\":\"reasoning_start\"\x7d".toList

/-- The two `reasoning_delta` lines of the reasoning scenario. -/
def reasoningDeltaLines : List Str :=
  ["data: \x7b\"type\":\"reasoning_delta\",\"content\":\"step1 \"\x7d".toList,
    "data: \x7b\"type\":\"reasoning_delta\",\"content\":\"step2\"\x7d".toList]

/-- A `reasoning_delta` event with the content `x`. -/
def reasoningDeltaEvent : Value :=
  .obj [("type".toList, .str "reasoning_delta".toList), ("content".toList, .str "x".toList)]

/-- A `content_block_delta` line with the text `Hi`, without a newline. -/
def hiLine : Str :=
  "data: \x7b\"type\":\"content_block_delta\",\"delta\":\x7b\"text\":\"Hi\"\x7d\x7d".toList

/-- A `data:` line whose payload is not JSON. -/
def brokenLine : Str := "data: \x7b\"type\":".toList

/-! ## Lines and chunks -/

theorem splitNL_newline (cs : Str) : splitNL ('\n' :: cs) = [] :: splitNL cs := by
  simp [splitNL]

theorem splitNL_cons {c : Char} (hc : c ≠ '\n') (cs : Str) :
    splitNL (c :: cs) =
      match splitNL cs with
      | [] => [[c]]
      | l :: ls => (c :: l) :: ls := by
  simp [splitNL, hc]

theorem splitNL_ne_nil (s : Str) : splitNL s ≠ [] := by
  cases s with
  | nil => simp [splitNL]
  | cons c cs =>
    by_cases hc : c = '\n'
    · subst hc
      simp [splitNL_newline]
    · rw [splitNL_cons hc]
      split <;> simp

theorem splitNL_of_not_mem {s : Str} (h : '\n' ∉ s) : splitNL s = [s] := by
  induction s with
  | nil => rfl
  | cons c cs ih =>
    have hc : c ≠ '\n' := fun e => h (by simp [e])
    have hcs : '\n' ∉ cs := fun e => h (List.mem_cons_of_mem _ e)
    rw [splitNL_cons hc, ih hcs]

theorem splitNL_line {l : Str} (h : '\n' ∉ l) (r : Str) :
    splitNL (l ++ '\n' :: r) = l :: splitNL r := by
  induction l with
  | nil => simp [splitNL_newline]
  | cons c cs ih =>
    have hc : c ≠ '\n' := fun e => h (by simp [e])
    have hcs : '\n' ∉ cs := fun e => h (List.mem_cons_of_mem _ e)
    rw [List.cons_append, splitNL_cons hc, ih hcs]

theorem splitNL_append (a b : Str) :
    splitNL (a ++ b) =
      (splitNL a).dropLast ++ splitNL ((splitNL a).getLast?.getD [] ++ b) := by
  induction a with
  | nil => simp [splitNL]
  | cons c cs ih =>
    obtain ⟨x, xs, hx⟩ := List.exists_cons_of_ne_nil (splitNL_ne_nil cs)
    by_cases hc : c = '\n'
    · subst hc
      rw [List.cons_append, splitNL_newline, splitNL_newline, ih, hx]
      simp [List.dropLast, List.getLast?_cons_cons]
    · rw [List.cons_append, splitNL_cons hc, splitNL_cons hc, ih, hx]
      cases xs with
      | nil =>
        simp only [List.dropLast, List.nil_append, List.getLast?_singleton, Option.getD_some,
          List.cons_append]
        rw [splitNL_cons hc]
      | cons y ys =>
        simp [List.dropLast, List.getLast?_cons_cons]

theorem splitNL_unlines (lines : List Str) (h : ∀ l ∈ lines, '\n' ∉ l) (tail : Str) :
    splitNL (unlines lines ++ tail) = lines ++ splitNL tail := by
  induction lines with
  | nil => simp [unlines]
  | cons l ls ih =>
    have hl : '\n' ∉ l := h l (by simp)
    have hls : ∀ x ∈ ls, '\n' ∉ x := fun x hx => h x (List.mem_cons_of_mem _ hx)
    have e : unlines (l :: ls) ++ tail = l ++ '\n' :: (unlines ls ++ tail) := by
      simp [unlines]
    rw [e, splitNL_line hl, ih hls]
    rfl

theorem splitNL_getLast_not_mem (s : Str) : '\n' ∉ (splitNL s).getLast?.getD [] := by
  induction s with
  | nil => simp [splitNL]
  | cons c cs ih =>
    obtain ⟨x, xs, hx⟩ := List.exists_cons_of_ne_nil (splitNL_ne_nil cs)
    by_cases hc : c = '\n'
    · subst hc
      rw [splitNL_newline, hx, List.getLast?_cons_cons, ← hx]
      exact ih
    · rw [splitNL_cons hc, hx]
      rw [hx] at ih
      cases xs with
      | nil =>
        simp only [List.getLast?_singleton, Option.getD_some, List.mem_cons, not_or] at ih ⊢
        exact ⟨fun e => hc e.symm, ih⟩
      | cons y ys =>
        simpa [List.getLast?_cons_cons] using ih

theorem decodeChunks_eq (buffer : Str) (chunks : List Str) (hb : '\n' ∉ buffer) :
    decodeChunks buffer chunks =
      ((splitNL (buffer ++ chunks.flatten)).dropLast,
        (splitNL (buffer ++ chunks.flatten)).getLast?.getD []) := by
  induction chunks generalizing buffer with
  | nil => simp [decodeChunks, splitNL_of_not_mem hb]
  | cons v rest ih =>
    have hlast := splitNL_getLast_not_mem (buffer ++ v)
    simp only [decodeChunks, decodeChunk, ih _ hlast, List.flatten_cons]
    rw [← List.append_assoc, splitNL_append (buffer ++ v) rest.flatten]
    have hne := splitNL_ne_nil ((splitNL (buffer ++ v)).getLast?.getD [] ++ rest.flatten)
    rw [List.dropLast_append_of_ne_nil _ hne, List.getLast?_append_of_ne_nil _ hne]

/-! ## A case principle for the dispatcher -/

/-- Whatever relates the results of every branch on two contexts relates the
results of the dispatcher on them. -/
theorem dispatch_rel (R : Ctx → Ctx → Prop) (rt : Runtime) (parsed : Value) (c d : Ctx)
    (hid : R c d) (hemit : ∀ e, R (c.emit e) (d.emit e))
    (hrs : hasType parsed "reasoning_start".toList = true →
      R (onReasoningStart c) (onReasoningStart d))
    (hrd : hasType parsed "reasoning_delta".toList = true →
      R (onReasoningDelta rt parsed c) (onReasoningDelta rt parsed d))
    (hss : R (onSearchStart c) (onSearchStart d))
    (hsr : R (onSearchResult parsed c) (onSearchResult parsed d))
    (hcs : R (onContentBlockStart c) (onContentBlockStart d))
    (hcd : hasType parsed "content_block_delta".toList = true →
      R (onContentBlockDelta rt parsed c) (onContentBlockDelta rt parsed d))
    (hmd : R (onMessageDelta parsed c) (onMessageDelta parsed d)) :
    R (dispatch rt parsed c) (dispatch rt parsed d) := by
  unfold dispatch
  revert hrs hrd hcd
  unfold hasType
  cases getProp parsed "type".toList with
  | none => intro _ _ _; exact hid
  | some t =>
    dsimp only
    intro hrs hrd hcd
    by_cases h1 : isStr t "message_start".toList = true
    · simp only [if_pos h1]; exact hemit _
    simp only [if_neg h1]
    by_cases h2 : isStr t "reasoning_start".toList = true
    · simp only [if_pos h2]; exact hrs h2
    simp only [if_neg h2]
    by_cases h3 : isStr t "reasoning_delta".toList = true
    · simp only [if_pos h3]; exact hrd h3
    simp only [if_neg h3]
    by_cases h4 : isStr t "reasoning_end".toList = true
    · simp only [if_pos h4]; exact hemit _
    simp only [if_neg h4]
    by_cases h5 : isStr t "search_start".toList = true
    · simp only [if_pos h5]; exact hss
    simp only [if_neg h5]
    by_cases h6 : isStr t "search_result".toList = true
    · simp only [if_pos h6]; exact hsr
    simp only [if_neg h6]
    by_cases h7 : isStr t "content_block_start".toList = true
    · simp only [if_pos h7]; exact hcs
    simp only [if_neg h7]
    by_cases h8 : isStr t "content_block_delta".toList = true
    · simp only [if_pos h8]; exact hcd h8
    simp only [if_neg h8]
    by_cases h9 : isStr t "content_block_stop".toList = true
    · simp only [if_pos h9]; exact hid
    simp only [if_neg h9]
    by_cases h10 : isStr t "message_delta".toList = true
    · simp only [if_pos h10]; exact hmd
    simp only [if_neg h10]
    by_cases h11 : isStr t "message_stop".toList = true
    · simp only [if_pos h11]; exact hemit _
    simp only [if_neg h11]
    exact hid

/-- Whatever holds of the result of every branch holds of the result of the
dispatcher. -/
theorem dispatch_ind (P : Ctx → Prop) (rt : Runtime) (parsed : Value) (c : Ctx)
    (hid : P c) (hemit : ∀ e, P (c.emit e))
    (hrs : hasType parsed "reasoning_start".toList = true → P (onReasoningStart c))
    (hrd : hasType parsed "reasoning_delta".toList = true → P (onReasoningDelta rt parsed c))
    (hss : P (onSearchStart c))
    (hsr : P (onSearchResult parsed c))
    (hcs : P (onContentBlockStart c))
    (hcd : hasType parsed "content_block_delta".toList = true →
      P (onContentBlockDelta rt parsed c))
    (hmd : P (onMessageDelta parsed c)) :
    P (dispatch rt parsed c) :=
  dispatch_rel (fun _ y => P y) rt parsed c c hid hemit hrs hrd hss hsr hcs hcd hmd

/-! ## What the dispatcher leaves alone -/

theorem SameOuter.refl (c : Ctx) : SameOuter c c := ⟨rfl, rfl, rfl, rfl, rfl⟩

theorem SameOuter.trans {c d e : Ctx} (h : SameOuter c d) (k : SameOuter d e) :
    SameOuter c e :=
  ⟨k.1.trans h.1, k.2.1.trans h.2.1, k.2.2.1.trans h.2.2.1, k.2.2.2.1.trans h.2.2.2.1,
    k.2.2.2.2.trans h.2.2.2.2⟩

theorem emit_sameOuter (c : Ctx) (e : Effect) : SameOuter c (c.emit e) :=
  ⟨rfl, rfl, rfl, rfl, rfl⟩

theorem onReasoningStart_sameOuter (c : Ctx) : SameOuter c (onReasoningStart c) := by
  unfold onReasoningStart
  dsimp only
  split_ifs <;> exact ⟨rfl, rfl, rfl, rfl, rfl⟩

theorem onReasoningDelta_sameOuter (rt : Runtime) (parsed : Value) (c : Ctx) :
    SameOuter c (onReasoningDelta rt parsed c) := by
  unfold onReasoningDelta
  dsimp only
  split
  · exact SameOuter.refl c
  · split_ifs <;> exact ⟨rfl, rfl, rfl, rfl, rfl⟩

theorem onSearchStart_sameOuter (c : Ctx) : SameOuter c (onSearchStart c) :=
  ⟨rfl, rfl, rfl, rfl, rfl⟩

theorem onSearchResult_sameOuter (parsed : Value) (c : Ctx) :
    SameOuter c (onSearchResult parsed c) := by
  unfold onSearchResult
  split <;> exact ⟨rfl, rfl, rfl, rfl, rfl⟩

theorem onContentBlockStart_sameOuter (c : Ctx) : SameOuter c (onContentBlockStart c) := by
  unfold onContentBlockStart
  dsimp only
  split_ifs <;> exact ⟨rfl, rfl, rfl, rfl, rfl⟩

theorem onContentBlockDelta_sameOuter (rt : Runtime) (parsed : Value) (c : Ctx) :
    SameOuter c (onContentBlockDelta rt parsed c) := by
  unfold onContentBlockDelta
  dsimp only
  split
  · exact SameOuter.refl c
  · split_ifs <;> exact ⟨rfl, rfl, rfl, rfl, rfl⟩

theorem onMessageDelta_sameOuter (parsed : Value) (c : Ctx) :
    SameOuter c (onMessageDelta parsed c) := by
  unfold onMessageDelta
  dsimp only
  split_ifs <;> exact ⟨rfl, rfl, rfl, rfl, rfl⟩

theorem dispatch_sameOuter (rt : Runtime) (parsed : Value) (c : Ctx) :
    SameOuter c (dispatch rt parsed c) :=
  dispatch_ind (SameOuter c) rt parsed c (SameOuter.refl c) (emit_sameOuter c)
    (fun _ => onReasoningStart_sameOuter c) (fun _ => onReasoningDelta_sameOuter rt parsed c)
    (onSearchStart_sameOuter c) (onSearchResult_sameOuter parsed c)
    (onContentBlockStart_sameOuter c) (fun _ => onContentBlockDelta_sameOuter rt parsed c)
    (onMessageDelta_sameOuter parsed c)

/-- A case principle for the body of the line loop. -/
theorem processLine_rel (R : Ctx → Ctx → Prop) (rt : Runtime) (line : Str) (c d : Ctx)
    (hid : R c d) (hemit : ∀ e, R (c.emit e) (d.emit e))
    (hdisp : ∀ parsed, R (dispatch rt parsed c) (dispatch rt parsed d)) :
    R (processLine rt line c) (processLine rt line d) := by
  unfold processLine
  by_cases h1 : ((trim line).isEmpty || startsWith line ":".toList) = true
  · simp only [if_pos h1]; exact hid
  simp only [if_neg h1]
  by_cases h2 : startsWith line "data:".toList = true
  · simp only [if_pos h2]
    by_cases h3 : trim (slice line 5) = "[DONE]".toList
    · simp only [if_pos h3]; exact hemit _
    simp only [if_neg h3]
    cases rt.JSONparse (trim (slice line 5)) with
    | none => exact hid
    | some parsed => exact hdisp parsed
  · simp only [if_neg h2]; exact hid

theorem processLine_sameOuter (rt : Runtime) (line : Str) (c : Ctx) :
    SameOuter c (processLine rt line c) :=
  processLine_rel (fun _ y => SameOuter c y) rt line c c (SameOuter.refl c) (emit_sameOuter c)
    (fun parsed => dispatch_sameOuter rt parsed c)

theorem processLines_sameOuter (rt : Runtime) (lines : List Str) (c : Ctx) :
    SameOuter c (processLines rt lines c) := by
  induction lines generalizing c with
  | nil => exact SameOuter.refl c
  | cons l ls ih =>
    exact (processLine_sameOuter rt l c).trans (ih (processLine rt l c))

/-! ## The dispatcher does not read the buffer -/

theorem onReasoningStart_buffer (c : Ctx) (b : Str) :
    onReasoningStart { c with buffer := b } = { onReasoningStart c with buffer := b } := by
  unfold onReasoningStart
  dsimp only [Ctx.emit]
  split_ifs <;> rfl

theorem onReasoningDelta_buffer (rt : Runtime) (parsed : Value) (c : Ctx) (b : Str) :
    onReasoningDelta rt parsed { c with buffer := b } =
      { onReasoningDelta rt parsed c with buffer := b } := by
  unfold onReasoningDelta
  dsimp only [Ctx.emit]
  split
  · rfl
  · split_ifs <;> rfl

theorem onSearchResult_buffer (parsed : Value) (c : Ctx) (b : Str) :
    onSearchResult parsed { c with buffer := b } = { onSearchResult parsed c with buffer := b } := by
  unfold onSearchResult
  split <;> rfl

theorem onContentBlockStart_buffer (c : Ctx) (b : Str) :
    onContentBlockStart { c with buffer := b } = { onContentBlockStart c with buffer := b } := by
  unfold onContentBlockStart
  dsimp only [Ctx.emit]
  split_ifs <;> rfl

theorem onContentBlockDelta_buffer (rt : Runtime) (parsed : Value) (c : Ctx) (b : Str) :
    onContentBlockDelta rt parsed { c with buffer := b } =
      { onContentBlockDelta rt parsed c with buffer := b } := by
  unfold onContentBlockDelta
  dsimp only [Ctx.emit]
  split
  · rfl
  · split_ifs <;> rfl

theorem onMessageDelta_buffer (parsed : Value) (c : Ctx) (b : Str) :
    onMessageDelta parsed { c with buffer := b } = { onMessageDelta parsed c with buffer := b } := by
  unfold onMessageDelta
  dsimp only
  split_ifs <;> rfl

theorem dispatch_buffer (rt : Runtime) (parsed : Value) (c : Ctx) (b : Str) :
    dispatch rt parsed { c with buffer := b } = { dispatch rt parsed c with buffer := b } :=
  dispatch_rel (fun x y => y = { x with buffer := b }) rt parsed c { c with buffer := b }
    rfl (fun _ => rfl) (fun _ => onReasoningStart_buffer c b)
    (fun _ => onReasoningDelta_buffer rt parsed c b)
    rfl (onSearchResult_buffer parsed c b) (onContentBlockStart_buffer c b)
    (fun _ => onContentBlockDelta_buffer rt parsed c b) (onMessageDelta_buffer parsed c b)

theorem processLine_buffer (rt : Runtime) (line : Str) (c : Ctx) (b : Str) :
    processLine rt line { c with buffer := b } = { processLine rt line c with buffer := b } :=
  processLine_rel (fun x y => y = { x with buffer := b }) rt line c { c with buffer := b }
    rfl (fun _ => rfl) (fun parsed => dispatch_buffer rt parsed c b)

theorem processLines_cons (rt : Runtime) (l : Str) (ls : List Str) (c : Ctx) :
    processLines rt (l :: ls) c = processLines rt ls (processLine rt l c) := rfl

theorem processLines_buffer (rt : Runtime) (lines : List Str) (c : Ctx) (b : Str) :
    processLines rt lines { c with buffer := b } =
      { processLines rt lines c with buffer := b } := by
  induction lines generalizing c with
  | nil => rfl
  | cons l ls ih =>
    rw [processLines_cons, processLines_cons, processLine_buffer, ih]

theorem processLines_append (rt : Runtime) (xs ys : List Str) (c : Ctx) :
    processLines rt (xs ++ ys) c = processLines rt ys (processLines rt xs c) := by
  simp [processLines, List.foldl_append]

/-- The read loop is the line loop over the lines the reads decode, followed by
the assignment of the last buffer. -/
theorem readLoop_eq (rt : Runtime) (chunks : List Str) (c : Ctx) :
    readLoop rt chunks c =
      { processLines rt (decodeChunks c.buffer chunks).1 c with
        buffer := (decodeChunks c.buffer chunks).2 } := by
  induction chunks generalizing c with
  | nil => rfl
  | cons v rest ih =>
    have hstep : readLoop rt (v :: rest) c = readLoop rt rest (readChunk rt v c) := rfl
    have hrc : readChunk rt v c =
        { processLines rt (decodeChunk c.buffer v).1 c with buffer := (decodeChunk c.buffer v).2 } :=
      processLines_buffer rt _ c _
    rw [hstep, ih, hrc]
    simp only [decodeChunks]
    rw [processLines_append, processLines_buffer]

/-! ## The events of a stream, read off its lines -/

theorem pieceText_str (rt : Runtime) (s : Str) : pieceText rt (.str s) = s := by
  cases s <;> simp [pieceText, orEmpty, toBoolean, toStr]

theorem pieceText_undefined (rt : Runtime) : pieceText rt .undefined = [] := by
  simp [pieceText, orEmpty, toBoolean, toStr]

theorem appendValue_eq (rt : Runtime) (text : Str) (field : Value) :
    (appendValue rt text (orEmpty rt field)).getD text = text ++ pieceText rt field := by
  unfold appendValue pieceText
  cases toStr rt (orEmpty rt field) <;> simp

theorem isStr_eq_true {t : Value} {a : Str} (h : isStr t a = true) : t = .str a := by
  cases t <;> simp_all [isStr]

theorem hasType_eq_true {ev : Value} {k : Str} (h : hasType ev k = true) :
    getProp ev "type".toList = some (.str k) := by
  unfold hasType at h
  cases hg : getProp ev "type".toList with
  | none => rw [hg] at h; simp at h
  | some t => rw [hg] at h; rw [isStr_eq_true h]

theorem dispatch_reasoning_start (rt : Runtime) (parsed : Value) (c : Ctx)
    (h : hasType parsed "reasoning_start".toList = true) :
    dispatch rt parsed c = onReasoningStart c := by
  unfold dispatch
  rw [hasType_eq_true h]
  simp +decide [isStr]

theorem dispatch_reasoning_delta (rt : Runtime) (parsed : Value) (c : Ctx)
    (h : hasType parsed "reasoning_delta".toList = true) :
    dispatch rt parsed c = onReasoningDelta rt parsed c := by
  unfold dispatch
  rw [hasType_eq_true h]
  simp +decide [isStr]

theorem dispatch_content_block_delta (rt : Runtime) (parsed : Value) (c : Ctx)
    (h : hasType parsed "content_block_delta".toList = true) :
    dispatch rt parsed c = onContentBlockDelta rt parsed c := by
  unfold dispatch
  rw [hasType_eq_true h]
  simp +decide [isStr]

/-! ## The two accumulators -/

theorem onSearchResult_sameTexts (parsed : Value) (c : Ctx) :
    SameTexts c (onSearchResult parsed c) := by
  unfold onSearchResult
  split <;> exact ⟨rfl, rfl⟩

theorem onContentBlockStart_sameTexts (c : Ctx) : SameTexts c (onContentBlockStart c) := by
  unfold onContentBlockStart
  dsimp only
  split_ifs <;> exact ⟨rfl, rfl⟩

theorem onMessageDelta_sameTexts (parsed : Value) (c : Ctx) :
    SameTexts c (onMessageDelta parsed c) := by
  unfold onMessageDelta
  dsimp only
  split_ifs <;> exact ⟨rfl, rfl⟩

theorem onReasoningStart_fullText (c : Ctx) : (onReasoningStart c).fullText = c.fullText := by
  unfold onReasoningStart
  dsimp only
  split_ifs <;> rfl

theorem onReasoningStart_thinkingText (c : Ctx) : (onReasoningStart c).thinkingText = [] := by
  unfold onReasoningStart
  dsimp only
  split_ifs <;> rfl

theorem onReasoningDelta_fullText (rt : Runtime) (parsed : Value) (c : Ctx) :
    (onReasoningDelta rt parsed c).fullText = c.fullText := by
  unfold onReasoningDelta
  dsimp only
  split
  · rfl
  · split_ifs <;> rfl

theorem onReasoningDelta_thinkingText (rt : Runtime) (parsed : Value) (c : Ctx) :
    (onReasoningDelta rt parsed c).thinkingText = c.thinkingText ++ contentText rt parsed := by
  rw [contentText, ← appendValue_eq]
  unfold onReasoningDelta
  dsimp only
  split
  · next h => rw [h]; rfl
  · next t h => rw [h]; split_ifs <;> rfl

theorem onContentBlockDelta_thinkingText (rt : Runtime) (parsed : Value) (c : Ctx) :
    (onContentBlockDelta rt parsed c).thinkingText = c.thinkingText := by
  unfold onContentBlockDelta
  dsimp only
  split
  · rfl
  · split_ifs <;> rfl

theorem onContentBlockDelta_fullText (rt : Runtime) (parsed : Value) (c : Ctx) :
    (onContentBlockDelta rt parsed c).fullText = c.fullText ++ deltaText rt parsed := by
  rw [deltaText, ← appendValue_eq]
  unfold onContentBlockDelta
  dsimp only
  split
  · next h => rw [h]; rfl
  · next t h => rw [h]; split_ifs <;> rfl

theorem dispatch_fullText (rt : Runtime) (parsed : Value) (c : Ctx) :
    (dispatch rt parsed c).fullText =
      c.fullText ++
        (if hasType parsed "content_block_delta".toList then deltaText rt parsed else []) := by
  by_cases h : hasType parsed "content_block_delta".toList = true
  · rw [dispatch_content_block_delta rt parsed c h, if_pos h, onContentBlockDelta_fullText]
  · rw [if_neg h, List.append_nil]
    exact dispatch_ind (fun x => x.fullText = c.fullText) rt parsed c rfl (fun _ => rfl)
      (fun _ => onReasoningStart_fullText c) (fun _ => onReasoningDelta_fullText rt parsed c)
      rfl (onSearchResult_sameTexts parsed c).1 (onContentBlockStart_sameTexts c).1
      (fun k => absurd k h) (onMessageDelta_sameTexts parsed c).1

theorem dispatch_thinkingText (rt : Runtime) (parsed : Value) (c : Ctx) :
    (dispatch rt parsed c).thinkingText =
      if hasType parsed "reasoning_start".toList then []
      else c.thinkingText ++
        (if hasType parsed "reasoning_delta".toList then contentText rt parsed else []) := by
  by_cases hs : hasType parsed "reasoning_start".toList = true
  · rw [dispatch_reasoning_start rt parsed c hs, if_pos hs, onReasoningStart_thinkingText]
  rw [if_neg hs]
  by_cases hd : hasType parsed "reasoning_delta".toList = true
  · rw [dispatch_reasoning_delta rt parsed c hd, if_pos hd, onReasoningDelta_thinkingText]
  rw [if_neg hd, List.append_nil]
  exact dispatch_ind (fun x => x.thinkingText = c.thinkingText) rt parsed c rfl (fun _ => rfl)
    (fun k => absurd k hs) (fun k => absurd k hd)
    rfl (onSearchResult_sameTexts parsed c).2 (onContentBlockStart_sameTexts c).2
    (fun _ => onContentBlockDelta_thinkingText rt parsed c) (onMessageDelta_sameTexts parsed c).2

/-- The body of the line loop is the dispatcher on the event of the line; a
`[DONE]` line clears the search bubble; any other line does nothing. -/
theorem processLine_eq (rt : Runtime) (line : Str) (c : Ctx) :
    processLine rt line c =
      match decodeLine rt line with
      | some ev => dispatch rt ev c
      | none => if isDoneLine line then c.emit .removeTemporaryMessages else c := by
  unfold processLine decodeLine isDoneLine
  by_cases h1 : ((trim line).isEmpty || startsWith line ":".toList) = true
  · simp only [if_pos h1]
    rw [h1]
    rfl
  simp only [if_neg h1]
  have h1f : ((trim line).isEmpty || startsWith line ":".toList) = false := by
    simpa using h1
  rw [h1f]
  by_cases h2 : startsWith line "data:".toList = true
  · simp only [if_pos h2]
    rw [h2]
    by_cases h3 : trim (slice line 5) = "[DONE]".toList
    · simp only [if_pos h3]
      rw [decide_eq_true h3]
      rfl
    · simp only [if_neg h3]
      rw [decide_eq_false h3]
      cases hp : rt.JSONparse (trim (slice line 5)) with
      | none => rfl
      | some parsed => rfl
  · simp only [if_neg h2]
    have h2f : startsWith line "data:".toList = false := by simpa using h2
    rw [h2f]
    rfl

/-! ## The line loop in terms of the events -/

theorem events_cons (rt : Runtime) (l : Str) (ls : List Str) :
    events rt (l :: ls) =
      (match decodeLine rt l with
        | some ev => [ev]
        | none => []) ++ events rt ls := by
  unfold events
  cases h : decodeLine rt l <;> simp [List.filterMap_cons, h]

theorem events_append (rt : Runtime) (xs ys : List Str) :
    events rt (xs ++ ys) = events rt xs ++ events rt ys := by
  simp [events, List.filterMap_append]

theorem events_skip (rt : Runtime) (pre post : List Str) (l : Str)
    (h : decodeLine rt l = none) : events rt (pre ++ l :: post) = events rt (pre ++ post) := by
  rw [events_append, events_append, events_cons, h]
  rfl

theorem processLine_fullText (rt : Runtime) (line : Str) (c : Ctx) :
    (processLine rt line c).fullText = c.fullText ++ answerText rt [line] := by
  rw [processLine_eq]
  unfold answerText events
  cases h : decodeLine rt line with
  | none =>
    simp only [List.filterMap_cons, h, List.filterMap_nil, List.filter_nil, List.map_nil,
      List.flatten_nil, List.append_nil]
    split_ifs <;> rfl
  | some ev =>
    simp only [List.filterMap_cons, h, List.filterMap_nil]
    rw [dispatch_fullText]
    generalize "content_block_delta".toList = name
    by_cases k : hasType ev name = true
    · simp [k]
    · simp [k]

theorem answerText_cons (rt : Runtime) (l : Str) (ls : List Str) :
    answerText rt (l :: ls) = answerText rt [l] ++ answerText rt ls := by
  unfold answerText
  rw [show l :: ls = [l] ++ ls from rfl, events_append]
  simp [List.filter_append]

theorem processLines_fullText (rt : Runtime) (lines : List Str) (c : Ctx) :
    (processLines rt lines c).fullText = c.fullText ++ answerText rt lines := by
  induction lines generalizing c with
  | nil => simp [processLines, answerText, events]
  | cons l ls ih =>
    rw [processLines_cons, ih, processLine_fullText, answerText_cons rt l ls, List.append_assoc]

theorem processLine_thinkingText (rt : Runtime) (line : Str) (c : Ctx) :
    (processLine rt line c).thinkingText =
      thinkingFold rt (events rt [line]) c.thinkingText := by
  rw [processLine_eq]
  unfold thinkingFold events
  cases h : decodeLine rt line with
  | none =>
    simp only [List.filterMap_cons, h, List.filterMap_nil, List.foldl_nil]
    split_ifs <;> rfl
  | some ev =>
    simp only [List.filterMap_cons, h, List.filterMap_nil, List.foldl_cons, List.foldl_nil]
    rw [dispatch_thinkingText]
    rfl

theorem processLines_thinkingText (rt : Runtime) (lines : List Str) (c : Ctx) :
    (processLines rt lines c).thinkingText =
      thinkingFold rt (events rt lines) c.thinkingText := by
  induction lines generalizing c with
  | nil => rfl
  | cons l ls ih =>
    rw [processLines_cons, ih, processLine_thinkingText]
    rw [show l :: ls = [l] ++ ls from rfl, events_append]
    simp [thinkingFold, List.foldl_append]

theorem thinkingFold_no_start (rt : Runtime) (evs : List Value) (text : Str)
    (h : ∀ ev ∈ evs, hasType ev "reasoning_start".toList = false) :
    thinkingFold rt evs text =
      text ++ ((evs.filter (fun ev => hasType ev "reasoning_delta".toList)).map
        (contentText rt)).flatten := by
  induction evs generalizing text with
  | nil => simp [thinkingFold]
  | cons ev rest ih =>
    have h0 : hasType ev "reasoning_start".toList = false := h ev (by simp)
    have hr : ∀ e ∈ rest, hasType e "reasoning_start".toList = false :=
      fun e he => h e (List.mem_cons_of_mem _ he)
    have hstep : thinkingFold rt (ev :: rest) text =
        thinkingFold rt rest (thinkingStep rt text ev) := rfl
    rw [hstep, ih _ hr]
    unfold thinkingStep
    rw [h0]
    generalize "reasoning_delta".toList = name
    by_cases k : hasType ev name = true
    · simp [k]
    · simp [k]

/-! ## The read loop on a text given by its lines -/

theorem decodeChunks_of_lines (lines : List Str) (tail : Str) (chunks : List Str)
    (hl : ∀ l ∈ lines, '\n' ∉ l) (ht : '\n' ∉ tail)
    (hc : chunks.flatten = unlines lines ++ tail) :
    decodeChunks [] chunks = (lines, tail) := by
  rw [decodeChunks_eq [] chunks (by simp), List.nil_append, hc, splitNL_unlines lines hl,
    splitNL_of_not_mem ht]
  simp

theorem readLoop_of_lines (rt : Runtime) (lines : List Str) (tail : Str) (chunks : List Str)
    (c : Ctx) (hb : c.buffer = [])
    (hl : ∀ l ∈ lines, '\n' ∉ l) (ht : '\n' ∉ tail)
    (hc : chunks.flatten = unlines lines ++ tail) :
    readLoop rt chunks c = { processLines rt lines c with buffer := tail } := by
  rw [readLoop_eq, hb, decodeChunks_of_lines lines tail chunks hl ht hc]

theorem unlines_cons (l : Str) (ls : List Str) :
    unlines (l :: ls) = l ++ '\n' :: unlines ls := by
  simp [unlines]

theorem unlines_splitNL (s : Str) :
    unlines (splitNL s).dropLast ++ (splitNL s).getLast?.getD [] = s := by
  induction s with
  | nil => simp [splitNL, unlines]
  | cons c cs ih =>
    obtain ⟨x, xs, hx⟩ := List.exists_cons_of_ne_nil (splitNL_ne_nil cs)
    rw [hx] at ih
    by_cases hc : c = '\n'
    · subst hc
      rw [splitNL_newline, hx]
      have e1 : ([] :: x :: xs).dropLast = [] :: (x :: xs).dropLast := rfl
      have e2 : (([] : Str) :: x :: xs).getLast? = (x :: xs).getLast? :=
        List.getLast?_cons_cons
      rw [e1, e2, unlines_cons, List.nil_append, List.cons_append, ih]
    · rw [splitNL_cons hc, hx]
      cases xs with
      | nil =>
        simp only [List.dropLast, List.getLast?_singleton, Option.getD_some] at ih ⊢
        simp only [unlines, List.map_nil, List.flatten_nil, List.nil_append] at ih ⊢
        rw [ih]
      | cons y ys =>
        have e1 : ((c :: x) :: y :: ys).dropLast = (c :: x) :: (y :: ys).dropLast := rfl
        have e2 : ((c :: x) :: y :: ys).getLast? = (y :: ys).getLast? :=
          List.getLast?_cons_cons
        have e3 : (x :: y :: ys).dropLast = x :: (y :: ys).dropLast := rfl
        have e4 : (x :: y :: ys).getLast? = (y :: ys).getLast? := List.getLast?_cons_cons
        rw [e3, e4, unlines_cons] at ih
        rw [e1, e2, unlines_cons]
        simp only [List.cons_append, List.append_assoc] at ih ⊢
        rw [ih]

theorem splitNL_not_mem (s : Str) : ∀ l ∈ splitNL s, '\n' ∉ l := by
  induction s with
  | nil => simp [splitNL]
  | cons c cs ih =>
    obtain ⟨x, xs, hx⟩ := List.exists_cons_of_ne_nil (splitNL_ne_nil cs)
    rw [hx] at ih
    by_cases hc : c = '\n'
    · subst hc
      rw [splitNL_newline, hx]
      intro l hl
      rcases List.mem_cons.1 hl with h | h
      · subst h; simp
      · exact ih l h
    · rw [splitNL_cons hc, hx]
      intro l hl
      rcases List.mem_cons.1 hl with h | h
      · subst h
        have hx0 := ih x (by simp)
        simp only [List.mem_cons, not_or]
        exact ⟨fun e => hc e.symm, hx0⟩
      · exact ih l (List.mem_cons_of_mem _ h)

/-! ## Lemmas on `sendMessage` -/

theorem sendMessage_run (rt : Runtime) (m : Str) (resp : Response) (s : State)
    (hm : trim m ≠ []) (hs : s.sendDisabled = false) :
    sendMessage rt m resp s = finallyBlock (exchange rt resp (submit (trim m) s)) := by
  unfold sendMessage
  dsimp only
  rw [hs, if_neg]
  cases h : trim m with
  | nil => exact absurd h hm
  | cons a l => simp

theorem updateSession_conversationHistory (x y : Option Str) (s : State) :
    (updateSession x y s).conversationHistory = s.conversationHistory := by
  unfold updateSession
  rcases x with _ | _ | ⟨a, l⟩ <;> rcases y with _ | _ | ⟨b, k⟩ <;> rfl

theorem updateSession_conversationId (x y : Option Str) (s : State) :
    (updateSession x y s).conversationId = headerOr x s.conversationId := by
  unfold updateSession
  rcases x with _ | _ | ⟨a, l⟩ <;> rcases y with _ | _ | ⟨b, k⟩ <;> rfl

theorem updateSession_parentMessageId (x y : Option Str) (s : State) :
    (updateSession x y s).parentMessageId = headerOr y s.parentMessageId := by
  unfold updateSession
  rcases x with _ | _ | ⟨a, l⟩ <;> rcases y with _ | _ | ⟨b, k⟩ <;> rfl

theorem commit_conversationHistory (c : Ctx) :
    (commit c).conversationHistory =
      c.conversationHistory ++ [Turn.mk .assistant (answerOrSentinel c.fullText)] := by
  unfold commit answerOrSentinel
  dsimp only
  split_ifs <;> rfl

theorem commit_conversationId (c : Ctx) : (commit c).conversationId = c.conversationId := by
  unfold commit
  dsimp only
  split_ifs <;> rfl

theorem commit_parentMessageId (c : Ctx) :
    (commit c).parentMessageId = c.parentMessageId := by
  unfold commit
  dsimp only
  split_ifs <;> rfl

theorem commit_buffer (c : Ctx) (b : Str) : commit { c with buffer := b } = commit c := by
  unfold commit
  dsimp only
  split_ifs <;> rfl

theorem readLoop_sameOuter (rt : Runtime) (chunks : List Str) (c : Ctx) :
    (readLoop rt chunks c).conversationHistory = c.conversationHistory ∧
      (readLoop rt chunks c).conversationId = c.conversationId ∧
      (readLoop rt chunks c).parentMessageId = c.parentMessageId := by
  rw [readLoop_eq]
  have h := processLines_sameOuter rt (decodeChunks c.buffer chunks).1 c
  exact ⟨h.1, h.2.1, h.2.2.1⟩

/-- The history after a successful exchange whose body ended: the history
before it, then the assistant turn for the answer the read loop accumulated. -/
theorem sendMessage_success_history (rt : Runtime) (m : Str) (x y : Option Str)
    (chunks : List Str) (s : State) (hm : trim m ≠ []) (hs : s.sendDisabled = false) :
    (sendMessage rt m (.success x y chunks none) s).conversationHistory =
      s.conversationHistory ++ [Turn.mk .user (trim m),
        Turn.mk .assistant (answerOrSentinel
          (readLoop rt chunks (updateSession x y (submit (trim m) s)).enter).fullText)] := by
  rw [sendMessage_run rt m _ s hm hs]
  have h1 : (finallyBlock (exchange rt (.success x y chunks none) (submit (trim m) s))).conversationHistory
      = (commit (readLoop rt chunks (updateSession x y (submit (trim m) s)).enter)).conversationHistory :=
    rfl
  rw [h1, commit_conversationHistory, (readLoop_sameOuter rt chunks _).1]
  have h2 : (updateSession x y (submit (trim m) s)).enter.conversationHistory =
      (updateSession x y (submit (trim m) s)).conversationHistory := rfl
  rw [h2, updateSession_conversationHistory]
  have h3 : (submit (trim m) s).conversationHistory =
      s.conversationHistory ++ [Turn.mk .user (trim m)] := rfl
  rw [h3, List.append_assoc]
  rfl

theorem decodeLine_of_parse_failure (rt : Runtime) (bad : Str)
    (hp : rt.JSONparse (trim (slice bad 5)) = none) : decodeLine rt bad = none := by
  unfold decodeLine
  split_ifs <;> first | rfl | exact hp

theorem answerText_eq_of_events (rt : Runtime) (xs ys : List Str)
    (h : events rt xs = events rt ys) : answerText rt xs = answerText rt ys := by
  unfold answerText
  rw [h]

/-! ## The claims -/

set_option maxRecDepth 100000

/-- C1: for every prior history, every non-blank input and every successful
stream made of newline-terminated lines, however it is cut into chunks, the
history after `sendMessage` is the prior history, then the user turn with the
trimmed input, then exactly one assistant turn whose content is the
concatenation of `delta.text` over the `content_block_delta` events, or the
sentinel when that is empty; a string `delta.text` counts as itself and a
missing one as empty. -/
theorem sendMessage_commits_user_and_answer (rt : Runtime) (s : State) (m : Str)
    (x y : Option Str) (lines chunks : List Str)
    (hm : trim m ≠ []) (hs : s.sendDisabled = false)
    (hl : ∀ l ∈ lines, '\n' ∉ l) (hc : chunks.flatten = unlines lines) :
    (sendMessage rt m (.success x y chunks none) s).conversationHistory =
        s.conversationHistory ++ [Turn.mk .user (trim m),
          Turn.mk .assistant (answerOrSentinel (answerText rt lines))] ∧
      (∀ ev t, getPropOpt (getPropOpt ev "delta".toList) "text".toList = .str t →
        deltaText rt ev = t) ∧
      (∀ ev, getPropOpt (getPropOpt ev "delta".toList) "text".toList = .undefined →
        deltaText rt ev = []) := by
  refine ⟨?_, ?_, ?_⟩
  · rw [sendMessage_success_history rt m x y chunks s hm hs]
    have hc0 : chunks.flatten = unlines lines ++ [] := by rw [hc, List.append_nil]
    rw [readLoop_of_lines rt lines [] chunks _ rfl hl (by simp) hc0]
    have hf : ({ processLines rt lines (updateSession x y (submit (trim m) s)).enter with
        buffer := [] } : Ctx).fullText =
        (processLines rt lines (updateSession x y (submit (trim m) s)).enter).fullText := rfl
    rw [hf, processLines_fullText]
    rfl
  · intro ev t h
    rw [deltaText, h, pieceText_str]
  · intro ev h
    rw [deltaText, h, pieceText_undefined]

/-- Witness of C1: the stream of the first scenario on an empty history, cut in
the middle of a line, leaves the user turn and the assistant turn
`Hello there`, a history of length 2. -/
theorem sendMessage_commits_user_and_answer_witness :
    trim "hi".toList ≠ [] ∧ freshState.sendDisabled = false ∧
      (∀ l ∈ helloLines, '\n' ∉ l) ∧ helloChunks.flatten = unlines helloLines ∧
      (sendMessage scenarioRuntime "hi".toList (.success none none helloChunks none)
          freshState).conversationHistory =
        [Turn.mk .user "hi".toList, Turn.mk .assistant "Hello there".toList] ∧
      (sendMessage scenarioRuntime "hi".toList (.success none none helloChunks none)
          freshState).conversationHistory.length = 2 := by
  have h := (sendMessage_commits_user_and_answer scenarioRuntime freshState "hi".toList
    none none helloLines helloChunks (by decide) rfl (by decide) (by decide)).1
  have e : freshState.conversationHistory ++ [Turn.mk .user (trim "hi".toList),
      Turn.mk .assistant (answerOrSentinel (answerText scenarioRuntime helloLines))] =
      [Turn.mk .user "hi".toList, Turn.mk .assistant "Hello there".toList] := by decide
  rw [e] at h
  exact ⟨by decide, rfl, by decide, by decide, h, by rw [h]; rfl⟩

/-- C2: the line decoder does not depend on chunk boundaries.  For every way of
cutting a stream into chunks, the lines handed to the loop body and the buffer
left are those of the stream delivered as one chunk; the lines, each followed
by a newline, and the buffer reassemble the stream exactly, so no line is
dropped or handed over twice; and the read loop ends in the same context. -/
theorem readLoop_independent_of_chunking (rt : Runtime) (chunks : List Str) (c : Ctx)
    (hb : c.buffer = []) :
    decodeChunks [] chunks = decodeChunks [] [chunks.flatten] ∧
      unlines (decodeChunks [] chunks).1 ++ (decodeChunks [] chunks).2 = chunks.flatten ∧
      (∀ l ∈ (decodeChunks [] chunks).1, '\n' ∉ l) ∧
      readLoop rt chunks c =
        { processLines rt (decodeChunks [] chunks).1 c with
          buffer := (decodeChunks [] chunks).2 } ∧
      readLoop rt chunks c = readLoop rt [chunks.flatten] c := by
  have h1 : decodeChunks [] chunks =
      ((splitNL chunks.flatten).dropLast, (splitNL chunks.flatten).getLast?.getD []) := by
    rw [decodeChunks_eq [] chunks (by simp), List.nil_append]
  have h2 : decodeChunks [] [chunks.flatten] = decodeChunks [] chunks := by
    rw [h1, decodeChunks_eq [] [chunks.flatten] (by simp)]
    simp
  refine ⟨h2.symm, ?_, ?_, ?_, ?_⟩
  · rw [h1]
    exact unlines_splitNL chunks.flatten
  · rw [h1]
    intro l hl
    exact splitNL_not_mem chunks.flatten l (List.dropLast_subset _ hl)
  · rw [readLoop_eq, hb]
  · rw [readLoop_eq, readLoop_eq rt [chunks.flatten], hb, h2]

/-- Witness of C2: the chunks `data: {"typ` and `e":"message_stop"}` followed
by a newline hand over one line, which decodes to one event, `message_stop`. -/
theorem readLoop_independent_of_chunking_witness :
    freshState.enter.buffer = [] ∧
      (decodeChunks [] splitChunks).1 = ["data: \x7b\"type\":\"message_stop\"\x7d".toList] ∧
      (decodeChunks [] splitChunks).2 = [] ∧
      events scenarioRuntime (decodeChunks [] splitChunks).1 =
        [Value.obj [("type".toList, Value.str "message_stop".toList)]] ∧
      readLoop scenarioRuntime splitChunks freshState.enter =
        readLoop scenarioRuntime [splitChunks.flatten] freshState.enter :=
  ⟨rfl, by decide, by decide, rfl,
    (readLoop_independent_of_chunking scenarioRuntime splitChunks freshState.enter rfl).2.2.2.2⟩

/-- C3: for every prior history and every non-blank input, a response whose
status is not a success leaves the history exactly as it was before the call
(the user turn pushed at submission is removed, no assistant turn is added)
and leaves both session identifiers unchanged. -/
theorem sendMessage_httpError_restores_history (rt : Runtime) (s : State) (m message : Str)
    (hm : trim m ≠ []) (hs : s.sendDisabled = false) :
    (sendMessage rt m (.httpError message) s).conversationHistory = s.conversationHistory ∧
      (sendMessage rt m (.httpError message) s).conversationId = s.conversationId ∧
      (sendMessage rt m (.httpError message) s).parentMessageId = s.parentMessageId := by
  rw [sendMessage_run rt m _ s hm hs]
  refine ⟨?_, rfl, rfl⟩
  show (s.conversationHistory ++ [Turn.mk .user (trim m)]).dropLast = s.conversationHistory
  exact List.dropLast_concat

/-- Witness of C3: a failed request in the middle of a conversation. -/
theorem sendMessage_httpError_restores_history_witness :
    trim " again ".toList ≠ [] ∧ sessionState.sendDisabled = false ∧
      (sendMessage scenarioRuntime " again ".toList (.httpError "quota".toList)
          sessionState).conversationHistory =
        [Turn.mk .user "hi".toList, Turn.mk .assistant "Hello".toList] ∧
      (sendMessage scenarioRuntime " again ".toList (.httpError "quota".toList)
          sessionState).conversationId = some "conv-1".toList ∧
      (sendMessage scenarioRuntime " again ".toList (.httpError "quota".toList)
          sessionState).parentMessageId = some "msg-1".toList :=
  ⟨by decide, rfl,
    sendMessage_httpError_restores_history scenarioRuntime sessionState " again ".toList
      "quota".toList (by decide) rfl⟩

/-- C5: an event whose type is none of the handled kinds leaves the whole
context as it is: the answer text, the reasoning text, the message element, the
session identifiers and the history are unchanged and nothing is added to the
trace of calls into the page; the same holds of the line that carries it. -/
theorem dispatch_ignores_unknown_kind (rt : Runtime) (parsed : Value) (c : Ctx)
    (h : ∀ k ∈ handledKinds, hasType parsed k = false) :
    dispatch rt parsed c = c ∧
      ∀ line, decodeLine rt line = some parsed → processLine rt line c = c := by
  have hd : dispatch rt parsed c = c := by
    unfold dispatch
    revert h
    unfold hasType
    cases getProp parsed "type".toList with
    | none => intro _; rfl
    | some t =>
      dsimp only
      intro h
      have e1 := h "message_start".toList (by decide)
      have e2 := h "reasoning_start".toList (by decide)
      have e3 := h "reasoning_delta".toList (by decide)
      have e4 := h "reasoning_end".toList (by decide)
      have e5 := h "search_start".toList (by decide)
      have e6 := h "search_result".toList (by decide)
      have e7 := h "content_block_start".toList (by decide)
      have e8 := h "content_block_delta".toList (by decide)
      have e9 := h "content_block_stop".toList (by decide)
      have e10 := h "message_delta".toList (by decide)
      have e11 := h "message_stop".toList (by decide)
      rw [e1, e2, e3, e4, e5, e6, e7, e8, e9, e10, e11]
      rfl
  refine ⟨hd, ?_⟩
  intro line hl
  rw [processLine_eq, hl]
  exact hd

/-- Witness of C5: a `ping` event on a fresh context. -/
theorem dispatch_ignores_unknown_kind_witness :
    (∀ k ∈ handledKinds, hasType pingEvent k = false) ∧
      dispatch scenarioRuntime pingEvent freshState.enter = freshState.enter :=
  ⟨by decide, (dispatch_ignores_unknown_kind scenarioRuntime pingEvent freshState.enter
    (by decide)).1⟩

/-- C7: the header processing never erases.  After it, and at the end of the
exchange whatever the body does, `conversationId` is the `X-Conversation-ID`
value when that header is present and non-empty and its prior value otherwise,
`parentMessageId` is the `X-Assistant-Message-ID` value when that header is
present and non-empty and its prior value otherwise, each independently of the
other header. -/
theorem session_update_replaces_or_keeps (rt : Runtime) (x y : Option Str) (s : State)
    (chunks : List Str) (readError : Option Str) :
    (updateSession x y s).conversationId = headerOr x s.conversationId ∧
      (updateSession x y s).parentMessageId = headerOr y s.parentMessageId ∧
      (exchange rt (.success x y chunks readError) s).conversationId =
        headerOr x s.conversationId ∧
      (exchange rt (.success x y chunks readError) s).parentMessageId =
        headerOr y s.parentMessageId ∧
      (∀ prior : Option Str, headerOr none prior = prior ∧ headerOr (some []) prior = prior) ∧
      (∀ (prior : Option Str) (a : Char) (v : Str),
        headerOr (some (a :: v)) prior = some (a :: v)) := by
  have hl := readLoop_sameOuter rt chunks (updateSession x y s).enter
  refine ⟨updateSession_conversationId x y s, updateSession_parentMessageId x y s, ?_, ?_,
    fun _ => ⟨rfl, rfl⟩, fun _ _ _ => rfl⟩
  · rw [← updateSession_conversationId x y s]
    cases readError with
    | none => exact (commit_conversationId _).trans hl.2.1
    | some e => exact hl.2.1
  · rw [← updateSession_parentMessageId x y s]
    cases readError with
    | none => exact (commit_parentMessageId _).trans hl.2.2
    | some e => exact hl.2.2

theorem toStr_orEmpty_str (rt : Runtime) (t : Str) : toStr rt (orEmpty rt (.str t)) = some t := by
  cases t <;> simp [orEmpty, toBoolean, toStr]

theorem toStr_orEmpty_undefined (rt : Runtime) : toStr rt (orEmpty rt .undefined) = some [] := by
  simp [orEmpty, toBoolean, toStr]

theorem exchange_success_ids (rt : Runtime) (x y : Option Str) (chunks : List Str)
    (readError : Option Str) (s : State) :
    (exchange rt (.success x y chunks readError) s).conversationId =
        headerOr x s.conversationId ∧
      (exchange rt (.success x y chunks readError) s).parentMessageId =
        headerOr y s.parentMessageId := by
  have hl := readLoop_sameOuter rt chunks (updateSession x y s).enter
  rw [← updateSession_conversationId x y s, ← updateSession_parentMessageId x y s]
  cases readError with
  | none => exact ⟨(commit_conversationId _).trans hl.2.1, (commit_parentMessageId _).trans hl.2.2⟩
  | some e => exact ⟨hl.2.1, hl.2.2⟩

theorem headerOr_isSome (header prior : Option Str) (h : prior.isSome = true) :
    (headerOr header prior).isSome = true := by
  unfold headerOr
  cases header with
  | none => exact h
  | some v => dsimp only; split_ifs <;> simp [h]

theorem exchange_ids_isSome (rt : Runtime) (resp : Response) (s : State) :
    (s.conversationId.isSome = true → (exchange rt resp s).conversationId.isSome = true) ∧
      (s.parentMessageId.isSome = true → (exchange rt resp s).parentMessageId.isSome = true) := by
  cases resp with
  | networkError message => exact ⟨fun h => h, fun h => h⟩
  | httpError message => exact ⟨fun h => h, fun h => h⟩
  | success x y chunks readError =>
    have h := exchange_success_ids rt x y chunks readError s
    rw [h.1, h.2]
    exact ⟨headerOr_isSome x _, headerOr_isSome y _⟩

/-- C4: over lines that carry no `reasoning_start`, the reasoning text grows by
the concatenation, in arrival order, of the contents of the `reasoning_delta`
events, whatever other events (a `content_block_start` or none) come between
them; so it equals that concatenation after a `reasoning_start` and on a fresh
stream, however the stream is cut into chunks.  A string content counts as
itself and a missing one as empty. -/
theorem reasoning_text_is_concatenation (rt : Runtime) (lines : List Str) (c : Ctx)
    (hn : ∀ ev ∈ events rt lines, hasType ev "reasoning_start".toList = false) :
    (processLines rt lines c).thinkingText = c.thinkingText ++ reasoningText rt lines ∧
      (∀ start ev, decodeLine rt start = some ev →
        hasType ev "reasoning_start".toList = true →
        (processLines rt (start :: lines) c).thinkingText = reasoningText rt lines) ∧
      (∀ (s : State) (chunks : List Str) (tail : Str), (∀ l ∈ lines, '\n' ∉ l) →
        '\n' ∉ tail → chunks.flatten = unlines lines ++ tail →
        (readLoop rt chunks s.enter).thinkingText = reasoningText rt lines) ∧
      (∀ ev t, getPropOpt ev "content".toList = .str t → contentText rt ev = t) ∧
      (∀ ev, getPropOpt ev "content".toList = .undefined → contentText rt ev = []) := by
  have key : ∀ d : Ctx,
      (processLines rt lines d).thinkingText = d.thinkingText ++ reasoningText rt lines := by
    intro d
    rw [processLines_thinkingText, thinkingFold_no_start rt _ _ hn]
    rfl
  refine ⟨key c, ?_, ?_, ?_, ?_⟩
  · intro start ev hdec hrs
    rw [processLines_cons, key]
    have h0 : (processLine rt start c).thinkingText = [] := by
      rw [processLine_eq, hdec]
      show (dispatch rt ev c).thinkingText = []
      rw [dispatch_reasoning_start rt ev c hrs, onReasoningStart_thinkingText]
    rw [h0, List.nil_append]
  · intro s chunks tail hl ht hc
    rw [readLoop_of_lines rt lines tail chunks s.enter rfl hl ht hc]
    exact key s.enter
  · intro ev t h
    rw [contentText, h, pieceText_str]
  · intro ev h
    rw [contentText, h, pieceText_undefined]

/-- Witness of C4: `reasoning_start`, `reasoning_delta` with `step1 `, then
`reasoning_delta` with `step2`, then the end of the body: the reasoning text is
`step1 step2`, it is what the page was last given, and the committed answer is
the sentinel. -/
theorem reasoning_text_is_concatenation_witness :
    (∀ ev ∈ events scenarioRuntime reasoningDeltaLines,
        hasType ev "reasoning_start".toList = false) ∧
      (processLines scenarioRuntime (reasoningStartLine :: reasoningDeltaLines)
          freshState.enter).thinkingText = "step1 step2".toList ∧
      (readLoop scenarioRuntime [unlines (reasoningStartLine :: reasoningDeltaLines)]
          freshState.enter).ui.getLast? =
        some (Effect.updateThinkingSection "step1 step2".toList) ∧
      (sendMessage scenarioRuntime "hi".toList
          (.success none none [unlines (reasoningStartLine :: reasoningDeltaLines)] none)
          freshState).conversationHistory =
        [Turn.mk .user "hi".toList, Turn.mk .assistant emptyResponse] := by
  have h := (reasoning_text_is_concatenation scenarioRuntime reasoningDeltaLines
    freshState.enter (by decide)).2.1 reasoningStartLine
    (.obj [("type".toList, .str "reasoning_start".toList)]) rfl rfl
  have e : reasoningText scenarioRuntime reasoningDeltaLines = "step1 step2".toList := by
    decide
  rw [e] at h
  exact ⟨by decide, h, rfl, by decide⟩

/-- C6: a `data:` line whose payload fails `JSON.parse` is skipped without
ending the stream.  The lines after it are still handed to the loop body; the
answer text and the reasoning text at the end of the read loop, and the
committed history, are those of the stream without that line; and the call
takes the success path: the user turn stays and one assistant turn is
committed. -/
theorem malformed_data_line_is_skipped (rt : Runtime) (s : State) (m : Str)
    (x y : Option Str) (pre post : List Str) (bad tail : Str) (chunks chunks2 : List Str)
    (hm : trim m ≠ []) (hs : s.sendDisabled = false)
    (hpre : ∀ l ∈ pre, '\n' ∉ l) (hpost : ∀ l ∈ post, '\n' ∉ l)
    (hbad : '\n' ∉ bad) (htail : '\n' ∉ tail)
    (hd : startsWith bad "data:".toList = true)
    (hp : rt.JSONparse (trim (slice bad 5)) = none)
    (hc : chunks.flatten = unlines (pre ++ bad :: post) ++ tail)
    (hc2 : chunks2.flatten = unlines (pre ++ post) ++ tail) :
    (decodeChunks [] chunks).1 = pre ++ bad :: post ∧
      (∀ c : Ctx, c.buffer = [] →
        (readLoop rt chunks c).fullText = (readLoop rt chunks2 c).fullText ∧
        (readLoop rt chunks c).thinkingText = (readLoop rt chunks2 c).thinkingText) ∧
      (sendMessage rt m (.success x y chunks none) s).conversationHistory =
        (sendMessage rt m (.success x y chunks2 none) s).conversationHistory ∧
      (sendMessage rt m (.success x y chunks none) s).conversationHistory =
        s.conversationHistory ++ [Turn.mk .user (trim m),
          Turn.mk .assistant (answerOrSentinel (answerText rt (pre ++ post)))] := by
  have _ := hd
  have hall : ∀ l ∈ pre ++ bad :: post, '\n' ∉ l := by
    intro l hl
    rcases List.mem_append.1 hl with h | h
    · exact hpre l h
    · rcases List.mem_cons.1 h with h | h
      · subst h; exact hbad
      · exact hpost l h
  have hall2 : ∀ l ∈ pre ++ post, '\n' ∉ l := by
    intro l hl
    rcases List.mem_append.1 hl with h | h
    · exact hpre l h
    · exact hpost l h
  have hev : events rt (pre ++ bad :: post) = events rt (pre ++ post) :=
    events_skip rt pre post bad (decodeLine_of_parse_failure rt bad hp)
  have hloop : ∀ c : Ctx, c.buffer = [] →
      (readLoop rt chunks c).fullText = (readLoop rt chunks2 c).fullText ∧
      (readLoop rt chunks c).thinkingText = (readLoop rt chunks2 c).thinkingText := by
    intro c hb
    rw [readLoop_of_lines rt _ tail chunks c hb hall htail hc,
      readLoop_of_lines rt _ tail chunks2 c hb hall2 htail hc2]
    constructor
    · show (processLines rt (pre ++ bad :: post) c).fullText =
        (processLines rt (pre ++ post) c).fullText
      rw [processLines_fullText, processLines_fullText, answerText_eq_of_events rt _ _ hev]
    · show (processLines rt (pre ++ bad :: post) c).thinkingText =
        (processLines rt (pre ++ post) c).thinkingText
      rw [processLines_thinkingText, processLines_thinkingText, hev]
  have hfull := (hloop (updateSession x y (submit (trim m) s)).enter rfl).1
  have hhist2 : (sendMessage rt m (.success x y chunks2 none) s).conversationHistory =
      s.conversationHistory ++ [Turn.mk .user (trim m),
        Turn.mk .assistant (answerOrSentinel (answerText rt (pre ++ post)))] := by
    rw [sendMessage_success_history rt m x y chunks2 s hm hs,
      readLoop_of_lines rt _ tail chunks2 _ rfl hall2 htail hc2]
    show s.conversationHistory ++ [Turn.mk .user (trim m), Turn.mk .assistant (answerOrSentinel
      (processLines rt (pre ++ post) (updateSession x y (submit (trim m) s)).enter).fullText)] = _
    rw [processLines_fullText]
    rfl
  have hhist : (sendMessage rt m (.success x y chunks none) s).conversationHistory =
      (sendMessage rt m (.success x y chunks2 none) s).conversationHistory := by
    rw [sendMessage_success_history rt m x y chunks s hm hs,
      sendMessage_success_history rt m x y chunks2 s hm hs, hfull]
  exact ⟨by rw [decodeChunks_of_lines _ tail chunks hall htail hc], hloop, hhist,
    hhist.trans hhist2⟩

/-- Witness of C6: a broken `data:` line between the two text deltas of the
first scenario changes nothing of the committed history. -/
theorem malformed_data_line_is_skipped_witness :
    startsWith brokenLine "data:".toList = true ∧
      scenarioRuntime.JSONparse (trim (slice brokenLine 5)) = none ∧
      (decodeChunks [] [unlines (helloLines.take 3 ++ brokenLine :: helloLines.drop 3)]).1 =
        helloLines.take 3 ++ brokenLine :: helloLines.drop 3 ∧
      (sendMessage scenarioRuntime "hi".toList
          (.success none none [unlines (helloLines.take 3 ++ brokenLine :: helloLines.drop 3)]
            none) freshState).conversationHistory =
        [Turn.mk .user "hi".toList, Turn.mk .assistant "Hello there".toList] := by
  have h := malformed_data_line_is_skipped scenarioRuntime freshState "hi".toList none none
    (helloLines.take 3) (helloLines.drop 3) brokenLine []
    [unlines (helloLines.take 3 ++ brokenLine :: helloLines.drop 3)] helloChunks
    (by decide) rfl (by decide) (by decide) (by decide) (by decide) (by decide) rfl
    (by decide) (by decide)
  have e : freshState.conversationHistory ++ [Turn.mk .user (trim "hi".toList),
      Turn.mk .assistant (answerOrSentinel
        (answerText scenarioRuntime (helloLines.take 3 ++ helloLines.drop 3)))] =
      [Turn.mk .user "hi".toList, Turn.mk .assistant "Hello there".toList] := by decide
  exact ⟨by decide, rfl, h.1, h.2.2.2.trans e⟩

/-- Counterexample to C8 as stated: in a state where both session identifiers
are present, `clearConversation` leaves both absent. -/
theorem clearConversation_erases_session :
    sessionState.conversationId.isSome = true ∧ sessionState.parentMessageId.isSome = true ∧
      (clearConversation sessionState).conversationId = none ∧
      (clearConversation sessionState).parentMessageId = none :=
  ⟨rfl, rfl, rfl, rfl⟩

/-- C8, amended: a session identifier that is present stays present across
`sendMessage`, whatever the input and the response (a request that is not sent,
a network failure, an error status, a stream that ends or that fails), and
across the dispatch of any event and the processing of any line, which leave
both identifiers as they are; `clearConversation` is the one operation that
resets them, both to absent. -/
theorem session_ids_persist_except_clear (rt : Runtime) (m : Str) (resp : Response)
    (s : State) :
    (s.conversationId.isSome = true →
        (sendMessage rt m resp s).conversationId.isSome = true) ∧
      (s.parentMessageId.isSome = true →
        (sendMessage rt m resp s).parentMessageId.isSome = true) ∧
      (∀ parsed c, (dispatch rt parsed c).conversationId = c.conversationId ∧
        (dispatch rt parsed c).parentMessageId = c.parentMessageId) ∧
      (∀ line c, (processLine rt line c).conversationId = c.conversationId ∧
        (processLine rt line c).parentMessageId = c.parentMessageId) ∧
      (clearConversation s).conversationId = none ∧
      (clearConversation s).parentMessageId = none := by
  refine ⟨?_, ?_, fun parsed c => ⟨(dispatch_sameOuter rt parsed c).2.1,
    (dispatch_sameOuter rt parsed c).2.2.1⟩, fun line c => ⟨(processLine_sameOuter rt line c).2.1,
    (processLine_sameOuter rt line c).2.2.1⟩, rfl, rfl⟩
  · intro h
    unfold sendMessage
    dsimp only
    split_ifs
    · exact h
    · exact (exchange_ids_isSome rt resp (submit (trim m) s)).1 h
  · intro h
    unfold sendMessage
    dsimp only
    split_ifs
    · exact h
    · exact (exchange_ids_isSome rt resp (submit (trim m) s)).2 h

/-- Witness of C8, amended: a successful response without the two headers in
the middle of a conversation keeps both identifiers. -/
theorem session_ids_persist_except_clear_witness :
    sessionState.conversationId.isSome = true ∧ sessionState.parentMessageId.isSome = true ∧
      (sendMessage scenarioRuntime "hi".toList (.success none none helloChunks none)
          sessionState).conversationId.isSome = true ∧
      (sendMessage scenarioRuntime "hi".toList (.success none none helloChunks none)
          sessionState).parentMessageId.isSome = true :=
  ⟨rfl, rfl,
    (session_ids_persist_except_clear scenarioRuntime "hi".toList
      (.success none none helloChunks none) sessionState).1 rfl,
    (session_ids_persist_except_clear scenarioRuntime "hi".toList
      (.success none none helloChunks none) sessionState).2.1 rfl⟩

/-- Counterexample to C9 as stated: on a fresh stream, where no message element
exists, a `reasoning_delta` with content `x` accumulates the text but creates
no element and calls nothing in the page. -/
theorem reasoning_delta_on_fresh_stream_is_silent :
    freshState.enter.assistantMessageEl = false ∧
      hasType reasoningDeltaEvent "reasoning_delta".toList = true ∧
      (dispatch scenarioRuntime reasoningDeltaEvent freshState.enter).assistantMessageEl =
        false ∧
      (dispatch scenarioRuntime reasoningDeltaEvent freshState.enter).ui = [] ∧
      (dispatch scenarioRuntime reasoningDeltaEvent freshState.enter).thinkingText =
        "x".toList :=
  ⟨rfl, rfl, rfl, rfl, rfl⟩

/-- C9, amended: the dispatch of a `reasoning_delta` whose content is the string
`t` (or is missing, `t` being empty) appends `t` to the reasoning text and
neither creates nor removes the message element.  When the element exists the
page is given the full accumulated reasoning text, the prior text followed by
`t`, and nothing else; when it does not exist nothing is called. -/
theorem reasoning_delta_updates_existing_element (rt : Runtime) (parsed : Value) (c : Ctx)
    (t : Str) (h : hasType parsed "reasoning_delta".toList = true)
    (hcnt : getPropOpt parsed "content".toList = .str t ∨
      (getPropOpt parsed "content".toList = .undefined ∧ t = [])) :
    (dispatch rt parsed c).thinkingText = c.thinkingText ++ t ∧
      (dispatch rt parsed c).assistantMessageEl = c.assistantMessageEl ∧
      (c.assistantMessageEl = true →
        (dispatch rt parsed c).ui = c.ui ++ [.updateThinkingSection (c.thinkingText ++ t)]) ∧
      (c.assistantMessageEl = false → (dispatch rt parsed c).ui = c.ui) := by
  have hstr : toStr rt (orEmpty rt (getPropOpt parsed "content".toList)) = some t := by
    rcases hcnt with h1 | ⟨h1, h2⟩
    · rw [h1, toStr_orEmpty_str]
    · rw [h1, h2, toStr_orEmpty_undefined]
  have happ : appendValue rt c.thinkingText (orEmpty rt (getPropOpt parsed "content".toList)) =
      some (c.thinkingText ++ t) := by
    rw [appendValue, hstr]
    rfl
  rw [dispatch_reasoning_delta rt parsed c h]
  unfold onReasoningDelta
  dsimp only
  rw [happ]
  dsimp only
  cases hel : c.assistantMessageEl with
  | false => exact ⟨rfl, rfl, fun k => absurd k (by simp), fun _ => rfl⟩
  | true => exact ⟨rfl, rfl, fun _ => rfl, fun k => absurd k (by simp)⟩

/-- Witness of C9, amended: after a `reasoning_start` created the element, a
`reasoning_delta` with content `x` gives the page the whole reasoning text. -/
theorem reasoning_delta_updates_existing_element_witness :
    hasType reasoningDeltaEvent "reasoning_delta".toList = true ∧
      (onReasoningStart freshState.enter).assistantMessageEl = true ∧
      (dispatch scenarioRuntime reasoningDeltaEvent
          (onReasoningStart freshState.enter)).ui.getLast? =
        some (Effect.updateThinkingSection "x".toList) ∧
      (dispatch scenarioRuntime reasoningDeltaEvent
          (onReasoningStart freshState.enter)).thinkingText = "x".toList := by
  have h := reasoning_delta_updates_existing_element scenarioRuntime reasoningDeltaEvent
    (onReasoningStart freshState.enter) "x".toList rfl (Or.inl rfl)
  refine ⟨rfl, rfl, ?_, h.1⟩
  rw [h.2.2.1 rfl]
  rfl

/-- C10: the text after the last newline of a successful stream is never
dispatched.  The lines handed to the loop body are the complete lines, the
unterminated tail is left in the buffer, the read loop ends as on the stream
cut at its last newline except for that buffer, and the whole state after
`sendMessage` is the state for the truncated stream: the committed assistant
turn is the answer of the complete lines, or the sentinel. -/
theorem unterminated_tail_is_discarded (rt : Runtime) (s : State) (m : Str)
    (x y : Option Str) (lines : List Str) (tail : Str) (chunks chunks2 : List Str)
    (hm : trim m ≠ []) (hs : s.sendDisabled = false)
    (hl : ∀ l ∈ lines, '\n' ∉ l) (ht : '\n' ∉ tail)
    (hc : chunks.flatten = unlines lines ++ tail) (hc2 : chunks2.flatten = unlines lines) :
    decodeChunks [] chunks = (lines, tail) ∧
      (∀ c : Ctx, c.buffer = [] →
        readLoop rt chunks c = { readLoop rt chunks2 c with buffer := tail }) ∧
      sendMessage rt m (.success x y chunks none) s =
        sendMessage rt m (.success x y chunks2 none) s ∧
      (sendMessage rt m (.success x y chunks none) s).conversationHistory =
        s.conversationHistory ++ [Turn.mk .user (trim m),
          Turn.mk .assistant (answerOrSentinel (answerText rt lines))] := by
  have hc0 : chunks2.flatten = unlines lines ++ [] := by rw [hc2, List.append_nil]
  have hloop : ∀ c : Ctx, c.buffer = [] →
      readLoop rt chunks c = { readLoop rt chunks2 c with buffer := tail } := by
    intro c hb
    rw [readLoop_of_lines rt lines tail chunks c hb hl ht hc,
      readLoop_of_lines rt lines [] chunks2 c hb hl (by simp) hc0]
  have hsend : sendMessage rt m (.success x y chunks none) s =
      sendMessage rt m (.success x y chunks2 none) s := by
    rw [sendMessage_run rt m _ s hm hs, sendMessage_run rt m _ s hm hs]
    show finallyBlock (commit (readLoop rt chunks (updateSession x y (submit (trim m) s)).enter)) =
      finallyBlock (commit (readLoop rt chunks2 (updateSession x y (submit (trim m) s)).enter))
    rw [hloop _ rfl, commit_buffer]
  refine ⟨decodeChunks_of_lines lines tail chunks hl ht hc, hloop, hsend, ?_⟩
  rw [hsend, sendMessage_success_history rt m x y chunks2 s hm hs,
    readLoop_of_lines rt lines [] chunks2 _ rfl hl (by simp) hc0]
  show s.conversationHistory ++ [Turn.mk .user (trim m), Turn.mk .assistant (answerOrSentinel
    (processLines rt lines (updateSession x y (submit (trim m) s)).enter).fullText)] = _
  rw [processLines_fullText]
  rfl

/-- Witness of C10: a stream made of one `content_block_delta` line with the
text `Hi` and no newline commits the sentinel, while the same line followed by
a newline commits `Hi`. -/
theorem unterminated_tail_is_discarded_witness :
    '\n' ∉ hiLine ∧ [hiLine].flatten = unlines [] ++ hiLine ∧
      (sendMessage scenarioRuntime "hi".toList (.success none none [hiLine] none)
          freshState).conversationHistory =
        [Turn.mk .user "hi".toList, Turn.mk .assistant "[空响应]".toList] ∧
      (sendMessage scenarioRuntime "hi".toList (.success none none [hiLine ++ ['\n']] none)
          freshState).conversationHistory =
        [Turn.mk .user "hi".toList, Turn.mk .assistant "Hi".toList] := by
  have h := (unterminated_tail_is_discarded scenarioRuntime freshState "hi".toList none none
    [] hiLine [hiLine] [] (by decide) rfl (by decide) (by decide) (by decide) rfl).2.2.2
  have e : freshState.conversationHistory ++ [Turn.mk .user (trim "hi".toList),
      Turn.mk .assistant (answerOrSentinel (answerText scenarioRuntime []))] =
      [Turn.mk .user "hi".toList, Turn.mk .assistant "[空响应]".toList] := by decide
  exact ⟨by decide, by decide, h.trans e, by decide⟩

end SiderUI
